import Mathlib

/-!
# Verification of the autopilot scheduling engine

A shallow embedding, in Lean 4, of the core of the lifestyle-design backend
(`src/server.js` together with the mongoose schemas in `src/models/`):

* the Fingerprint/Similarity Engine (`normalizeCaption`, `hammingDistanceHex`,
  `cosineSimFromTokens`),
* the Duplicate Classifier (`isDuplicateCandidate` over a last-N recency window),
* the Distributed Lock (`tryAcquireLock`),
* the Refill Scheduler (`scheduleRefill`),
* the Pacing & Due-Posting Engine (`postDueWithCaps`, `postDueNow`), and
* the tick orchestrator (`runTick`).

Modelling conventions:

* JavaScript strings are `String` (a list of Unicode code points); the caption
  pipeline works on `List Char`.
* JavaScript numbers are idealised: counts and ids as `ℕ`, timestamps
  (milliseconds) as `ℤ`, durations as `ℚ`, and the cosine similarity as `ℝ`
  (the real-valued idealisation of the floating-point quotient).
* Mongoose documents are structures; collections are lists; a `save()` of a
  mutated document is an update-by-id over the list; `create` is an append.
  Fields that are `null`/absent in Mongo are `Option`s.
* `Date.now()`/`new Date()` are a single `now : ℤ` parameter per operation
  (time is frozen during one tick body), and the Central-Time wall clock
  `ctNowHHmm()` is a `String` parameter.
* The unique index on lock keys makes `PostingLock.create` fail exactly when
  the key is present; Mongo's TTL eviction is a background collaborator and is
  outside the model (expired locks are removed by the store, not by this code).
-/

namespace Backend

/-! ## JavaScript character classes and string primitives -/

/-- The set matched by JavaScript's `\s` (and by `String.prototype.trim`):
space, `\t`, `\n`, `\v`, `\f`, `\r`, NBSP, and the Unicode space separators
plus the line/paragraph separators and BOM. -/
def jsWS (c : Char) : Bool :=
  c = ' ' ∨ c = '\t' ∨ c = '\n' ∨ c.toNat = 0xb ∨ c.toNat = 0xc ∨ c = '\r' ∨
  c.toNat = 0xa0 ∨ c.toNat = 0x1680 ∨ (0x2000 ≤ c.toNat ∧ c.toNat ≤ 0x200a) ∨
  c.toNat = 0x2028 ∨ c.toNat = 0x2029 ∨ c.toNat = 0x202f ∨ c.toNat = 0x205f ∨
  c.toNat = 0x3000 ∨ c.toNat = 0xfeff

/-- Code-point-wise model of `String.prototype.toLowerCase`.  Only the ASCII
range matters downstream: every non-ASCII letter is later replaced by a space
by the `[^a-z0-9\s#]` filter whether or not it was lowercased. -/
def jsLower (c : Char) : Char :=
  if 'A' ≤ c ∧ c ≤ 'Z' then Char.ofNat (c.toNat + 32) else c

/-- `.replace(/[\u{1F600}-\u{1F6FF}]/gu, '')`: drop the emoji block. -/
def emojiStrip (l : List Char) : List Char :=
  l.filter (fun c => !(0x1F600 ≤ c.toNat ∧ c.toNat ≤ 0x1F6FF))

/-- Remove the prefix `pre` from `s`, if it is a prefix. -/
def dropPre : List Char → List Char → Option (List Char)
  | [], s => some s
  | _ :: _, [] => none
  | p :: ps, c :: cs => if p = c then dropPre ps cs else none

/-- One attempted match of `https?:\/\/\S+` with the scheme spelled out:
after the literal prefix, `\S+` greedily takes a non-empty run of
non-whitespace.  Returns the rest of the input after the match. -/
def urlTail (pre s : List Char) : Option (List Char) :=
  match dropPre pre s with
  | none => none
  | some rest =>
    match rest with
    | [] => none
    | c :: cs => if jsWS c then none else some ((c :: cs).dropWhile (fun d => !jsWS d))

/-- A match of `https?:\/\/\S+` starting at the head of `s` (the regex
backtracks from `https://` to `http://`, exactly the two alternatives). -/
def urlMatch (s : List Char) : Option (List Char) :=
  match urlTail ('h' :: 't' :: 't' :: 'p' :: 's' :: ':' :: '/' :: '/' :: []) s with
  | some r => some r
  | none => urlTail ('h' :: 't' :: 't' :: 'p' :: ':' :: '/' :: '/' :: []) s

/-- `.replace(/https?:\/\/\S+/g, '')`: scan left to right; at each position
either delete a leftmost match and continue after it, or keep the character.
Structured with explicit fuel (an upper bound on the length) so that it is
structural recursion. -/
def stripURLsGo : Nat → List Char → List Char
  | 0, _ => []
  | _ + 1, [] => []
  | fuel + 1, c :: cs =>
    match urlMatch (c :: cs) with
    | some rest => stripURLsGo fuel rest
    | none => c :: stripURLsGo fuel cs

def stripURLs (l : List Char) : List Char := stripURLsGo l.length l

/-- The character class kept by `.replace(/[^a-z0-9\s#]/g, ' ')`. -/
def keepChar (c : Char) : Bool :=
  ('a' ≤ c ∧ c ≤ 'z') ∨ ('0' ≤ c ∧ c ≤ '9') ∨ jsWS c ∨ c = '#'

/-- `.replace(/[^a-z0-9\s#]/g, ' ')`: every character outside the class
becomes a single space. -/
def charFilter (l : List Char) : List Char :=
  l.map (fun c => if keepChar c then c else ' ')

/-- `.replace(/\s+/g, ' ')` as a left-to-right scan: the flag says whether we
are inside a whitespace run whose first character was already replaced. -/
def collapseGo : Bool → List Char → List Char
  | _, [] => []
  | inRun, c :: cs =>
    if jsWS c then
      if inRun then collapseGo true cs else ' ' :: collapseGo true cs
    else c :: collapseGo false cs

def collapseWS (l : List Char) : List Char := collapseGo false l

/-- `String.prototype.trim`: drop `\s` characters from both ends. -/
def jsTrim (l : List Char) : List Char :=
  ((l.dropWhile jsWS).reverse.dropWhile jsWS).reverse

/-- Core of `normalizeCaption` on code-point lists: lowercase, strip the emoji
block, strip URLs, map everything outside `[a-z0-9\s#]` to a space, collapse
whitespace runs, trim. -/
def normCore (l : List Char) : List Char :=
  jsTrim (collapseWS (charFilter (stripURLs (emojiStrip (l.map jsLower)))))

/-- `normalizeCaption` from `server.js`. -/
def normalizeCaption (s : String) : String := ⟨normCore s.data⟩

/-! ## Hamming distance on hex hashes -/

/-- Value of one hex digit (the domain of `BigInt('0x' + a)` is valid hex;
other characters are outside the functions's domain and read as 0). -/
def hexDigitVal (c : Char) : Nat :=
  if '0' ≤ c ∧ c ≤ '9' then c.toNat - '0'.toNat
  else if 'a' ≤ c ∧ c ≤ 'f' then c.toNat - 'a'.toNat + 10
  else if 'A' ≤ c ∧ c ≤ 'F' then c.toNat - 'A'.toNat + 10
  else 0

/-- `BigInt('0x' + s)` for a hex string `s`. -/
def hexVal (l : List Char) : Nat := l.foldl (fun acc c => 16 * acc + hexDigitVal c) 0

/-- The `while (x) { dist += Number(x & 1n); x >>= 1n; }` popcount loop. -/
def popCountLoop (n : Nat) : Nat :=
  if n = 0 then 0 else n % 2 + popCountLoop (n / 2)
  termination_by n
  decreasing_by exact Nat.div_lt_self (Nat.pos_of_ne_zero (by assumption)) (by omega)

/-- `hammingDistanceHex` from `server.js`: `if (!a || !b) return 9999` (the
only falsy string is the empty string; a `null` hash is passed through
`Option.getD ""` by the callers), else popcount of the XOR. -/
def hammingDistanceHex (a b : String) : Nat :=
  if a = "" ∨ b = "" then 9999
  else popCountLoop (hexVal a.data ^^^ hexVal b.data)

/-! ## Token cosine similarity -/

/-- `s.split(' ')` in JavaScript: split on every single space, keeping empty
fragments; the empty string yields the one-element array `[""]`. -/
def splitSpace : List Char → List (List Char)
  | [] => [[]]
  | c :: cs =>
    match splitSpace cs with
    | [] => [[]]
    | t :: ts => if c = ' ' then [] :: t :: ts else (c :: t) :: ts

/-- The dot product of the two term-count maps, summed over the union of the
keys (`const all = new Set([...ta.keys(), ...tb.keys()])`). -/
def dotNat (a b : List (List Char)) : Nat :=
  ((a ++ b).dedup.map (fun k => a.count k * b.count k)).sum

/-- The squared norm of a term-count map (`na += va * va`). -/
def normSq (a : List (List Char)) : Nat :=
  (a.dedup.map (fun k => a.count k * a.count k)).sum

/-- `cosineSimFromTokens` from `server.js`: token multisets from `split(' ')`,
`0` if either squared norm is zero, else `dot / (Math.sqrt(na) * Math.sqrt(nb))`
(real-valued idealisation of the float arithmetic). -/
noncomputable def cosineSimFromTokens (a b : String) : ℝ :=
  if normSq (splitSpace a.data) = 0 ∨ normSq (splitSpace b.data) = 0 then 0
  else (dotNat (splitSpace a.data) (splitSpace b.data) : ℝ) /
    (Real.sqrt (normSq (splitSpace a.data)) * Real.sqrt (normSq (splitSpace b.data)))

/-! ## Data model (mongoose schemas) -/

inductive Platform
  | instagram
  | youtube
deriving DecidableEq, Repr

/-- `PostQueueSchema.status` enum. -/
inductive Status
  | queued
  | scheduled
  | posting
  | posted
  | failed
  | skipped
deriving DecidableEq, Repr

/-- A reason code returned by the duplicate classifier. -/
inductive Reason
  | duplicate_visual
  | duplicate_caption
  | duplicate_caption_duration
deriving DecidableEq, Repr

/-- A `PostQueue` document (a candidate).  `engagement.likes` exists with
default `0` by the schema default, so it is a plain integer. -/
structure Cand where
  id : Nat
  platform : Platform
  caption : String := ""
  captionNorm : String := ""
  likes : Int := 0
  status : Status := .queued
  scheduledAt : Option Int := none
  postedAt : Option Int := none
  visualHash : Option String := none
  audioKey : Option String := none
  durationSec : Option ℚ := none
deriving DecidableEq, Repr

/-- A `PostedMemo` document (an immutable posted record). -/
structure Posted where
  platform : Platform
  postedAt : Int
  visualHash : Option String := none
  captionNorm : String := ""
  audioKey : Option String := none
  durationSec : Option ℚ := none
deriving DecidableEq, Repr

/-- `BurstConfigSchema` (the fields the core reads). -/
structure BurstConfig where
  startTime : String := "00:00"
  endTime : String := "00:00"
  postsPerHour : Nat := 0
deriving DecidableEq, Repr

/-- The `Settings` document (the fields the core reads). -/
structure SettingsDoc where
  hourlyLimit : Nat := 3
  minimumIGLikesToRepost : Int := 0
  recentPostsWindowCount : Nat := 30
  burstModeEnabled : Bool := false
  burstModeConfig : Option BurstConfig := some {}
deriving DecidableEq, Repr

/-- The shared store: the `postqueue` collection, the `postedmemo` log, the
`postinglocks` collection (key and `expiresAt`), and the `settings` document
(`none` until `getOrCreateSettings` creates it). -/
structure St where
  queue : List Cand := []
  posted : List Posted := []
  locks : List (String × Int) := []
  settings : Option SettingsDoc := none
deriving DecidableEq, Repr

/-- `getOrCreateSettings`: read the settings document, creating a default one
if the collection is empty. -/
def getOrCreateSettings (st : St) : SettingsDoc × St :=
  match st.settings with
  | some s => (s, st)
  | none => ({}, { st with settings := some {} })

/-! ## Duplicate classifier -/

/-- The classifier's verdict: `{duplicate: bool, reason?}`. -/
structure Verdict where
  duplicate : Bool
  reason : Option Reason := none
deriving DecidableEq, Repr

/-- `candidate.durationSec || 0`: an absent duration is coerced to `0`. -/
def durOr0 (d : Option ℚ) : ℚ := d.getD 0

/-- A `null` hash reaches `hammingDistanceHex` as a falsy value, like the
empty string. -/
def optStr (o : Option String) : String := o.getD ""

open Classical in
/-- The body of the classifier's `for (const item of recent)` loop: the three
rules in source order, short-circuiting (each `return` of the loop body). -/
noncomputable def dupCheckItem (captionNorm : String) (vHash : Option String)
    (dur : Option ℚ) (item : Posted) : Option Reason :=
  if hammingDistanceHex (optStr vHash) (optStr item.visualHash) ≤ 8 then
    some .duplicate_visual
  else if (0.92 : ℝ) ≤ cosineSimFromTokens captionNorm item.captionNorm then
    some .duplicate_caption
  else if (0.85 : ℝ) ≤ cosineSimFromTokens captionNorm item.captionNorm ∧
      |durOr0 dur - durOr0 item.durationSec| ≤ 1 then
    some .duplicate_caption_duration
  else none

/-- The classifier's loop over the recency window: return on the first item
matching any rule, `{duplicate: false}` if the window is exhausted. -/
noncomputable def isDuplicateLoop (captionNorm : String) (vHash : Option String)
    (dur : Option ℚ) : List Posted → Verdict
  | [] => { duplicate := false }
  | item :: rest =>
    match dupCheckItem captionNorm vHash dur item with
    | some r => { duplicate := true, reason := some r }
    | none => isDuplicateLoop captionNorm vHash dur rest

/-- Stable insertion by a strict "comes before" test: `a` is placed before the
first element it strictly precedes. -/
def insertBy (before : α → α → Bool) (a : α) : List α → List α
  | [] => [a]
  | b :: bs => if before a b then a :: b :: bs else b :: insertBy before a bs

/-- Stable insertion sort (the model of a mongoose `.sort(...)`). -/
def sortBy (before : α → α → Bool) : List α → List α
  | [] => []
  | a :: as => insertBy before a (sortBy before as)

/-- `PostedMemo.find({platform}).sort({postedAt: -1}).limit(n)`. -/
def getLastNPosted (memos : List Posted) (p : Platform) (n : Nat) : List Posted :=
  (sortBy (fun a b => b.postedAt < a.postedAt) (memos.filter (fun m => m.platform = p))).take n

/-- `settings.recentPostsWindowCount || 30` (`0` is falsy). -/
def windowN (s : SettingsDoc) : Nat :=
  if s.recentPostsWindowCount = 0 then 30 else s.recentPostsWindowCount

/-- `candidate.caption || candidate.captionNorm || ''`. -/
def captionOrNorm (c : Cand) : String :=
  if c.caption ≠ "" then c.caption else c.captionNorm

/-- `isDuplicateCandidate(candidate, settings)` reading the `PostedMemo`
collection `memos`. -/
noncomputable def isDuplicateCandidate (c : Cand) (s : SettingsDoc)
    (memos : List Posted) : Verdict :=
  isDuplicateLoop (normalizeCaption (captionOrNorm c)) c.visualHash c.durationSec
    (getLastNPosted memos c.platform (windowN s))

/-! ## Distributed lock -/

/-- `tryAcquireLock(key, ttlSec)`: `PostingLock.create({key, expiresAt})`
succeeds iff no record with the key exists (unique index); on success the
record is inserted with `expiresAt = now + ttl`.  TTL eviction of expired
records is done by the store in the background, outside this model. -/
def tryAcquireLock (now : Int) (key : String) (ttlSec : Nat) (st : St) : Bool × St :=
  if key ∈ st.locks.map (fun l => l.1) then (false, st)
  else (true, { st with locks := st.locks ++ [(key, now + ttlSec * 1000)] })

/-- The per-item claim key `post:<candidateId>`. -/
def postKey (id : Nat) : String := "post:" ++ toString id

/-! ## Burst window -/

/-- JavaScript string `<` (lexicographic on code units; these strings are
ASCII `HH:mm`). -/
def lexLt : List Char → List Char → Bool
  | [], [] => false
  | [], _ :: _ => true
  | _ :: _, [] => false
  | a :: as, b :: bs => if a = b then lexLt as bs else decide (a < b)

def strLt (a b : String) : Bool := lexLt a.data b.data

def strLe (a b : String) : Bool := !strLt b a

/-- A falsy JavaScript string value: `undefined`/`null` or the empty string. -/
def strFalsy : Option String → Bool
  | none => true
  | some s => s = ""

/-- `isCtNowWithinWindow(startHHmm, endHHmm)` with the wall clock `now` passed
explicitly: lexicographic comparison of fixed-width `HH:mm`, window possibly
wrapping past midnight. -/
def isCtNowWithinWindow (startHHmm endHHmm : Option String) (now : String) : Bool :=
  if strFalsy startHHmm ∨ strFalsy endHHmm then false
  else
    let s := optStr startHHmm
    let e := optStr endHHmm
    if strLe s e then strLe s now && strLt now e
    else strLe s now || strLt now e

/-- `s.burstModeEnabled && isCtNowWithinWindow(s.burstModeConfig?.startTime,
s.burstModeConfig?.endTime)`. -/
def burstActive (s : SettingsDoc) (nowHHmm : String) : Bool :=
  s.burstModeEnabled &&
    isCtNowWithinWindow (s.burstModeConfig.map (fun c => c.startTime))
      (s.burstModeConfig.map (fun c => c.endTime)) nowHHmm

/-- `burstActive ? (s.burstModeConfig?.postsPerHour || s.hourlyLimit)
: s.hourlyLimit` (`0` posts per hour is falsy and falls back). -/
def effectiveHourlyLimit (s : SettingsDoc) (nowHHmm : String) : Nat :=
  if burstActive s nowHHmm then
    match s.burstModeConfig with
    | some c => if c.postsPerHour = 0 then s.hourlyLimit else c.postsPerHour
    | none => s.hourlyLimit
  else s.hourlyLimit

/-! ## Store queries and updates -/

/-- Update the document with the given id (`doc.save()` after mutation). -/
def updateById (i : Nat) (f : Cand → Cand) (q : List Cand) : List Cand :=
  q.map (fun c => if c.id = i then f c else c)

def setStatus (st : St) (i : Nat) (s : Status) : St :=
  { st with queue := updateById i (fun c => { c with status := s }) st.queue }

/-- `item.status = 'posted'; item.postedAt = new Date()`. -/
def markPosted (st : St) (i : Nat) (now : Int) : St :=
  { st with queue := updateById i (fun c => { c with status := .posted, postedAt := some now }) st.queue }

/-- `PostedMemo.create({...})` from a just-posted item. -/
def appendMemo (st : St) (item : Cand) (now : Int) : St :=
  { st with posted := st.posted ++
      [{ platform := item.platform, postedAt := now, visualHash := item.visualHash,
         captionNorm := item.captionNorm, audioKey := item.audioKey,
         durationSec := item.durationSec }] }

/-- `scheduledAt: {$lte: now}` (`null` does not satisfy a `$lte` date query). -/
def schedDue (c : Cand) (now : Int) : Bool :=
  match c.scheduledAt with
  | some t => t ≤ now
  | none => false

/-- `postedAt: {$gte: hourAgo}` for the trailing-hour count. -/
def postedSince (c : Cand) (t : Int) : Bool :=
  match c.postedAt with
  | some u => t ≤ u
  | none => false

/-- `PostQueue.countDocuments({platform, status:'posted', postedAt:{$gte: hourAgo}})`. -/
def countPostedSince (q : List Cand) (p : Platform) (hourAgo : Int) : Nat :=
  (q.filter (fun c => c.platform = p ∧ c.status = .posted ∧ postedSince c hourAgo)).length

def countStatus (q : List Cand) (s : Status) : Nat :=
  (q.filter (fun c => c.status = s)).length

/-- Audit/telemetry events (`pushEvent` / `ActivityLog.create`) emitted by one
operation, returned as a trace. -/
inductive Ev
  | scheduledEv (id : Nat) (at_ : Int)
  | skippedDupEv (id : Nat) (reason : Reason)
  | claimEv (id : Nat)
  | postedEv (id : Nat) (platform : Platform)
deriving DecidableEq, Repr

/-! ## Refill scheduler -/

/-- The `for (const cand of candidates)` loop of `scheduleRefill`:
skip Instagram candidates below the likes minimum; mark duplicates `skipped`;
otherwise promote to `scheduled` at `now + (added*60 + 30)s` and stop once
`added` reaches `need`. -/
noncomputable def refillLoop (s : SettingsDoc) (now : Int) (need : Nat) :
    List Cand → St → Nat → List Ev → St × Nat × List Ev
  | [], st, added, evs => (st, added, evs)
  | cand :: rest, st, added, evs =>
    if cand.platform = .instagram ∧ cand.likes < s.minimumIGLikesToRepost then
      refillLoop s now need rest st added evs
    else
      let dup := isDuplicateCandidate cand s st.posted
      if dup.duplicate then
        refillLoop s now need rest (setStatus st cand.id .skipped) added
          (evs ++ [.skippedDupEv cand.id (dup.reason.getD .duplicate_visual)])
      else
        let at_ : Int := now + (added * 60 + 30) * 1000
        let st' := { st with queue := (updateById cand.id (fun c =>
          { c with captionNorm := normalizeCaption c.caption,
                   status := .scheduled, scheduledAt := some at_ }) st.queue) }
        if need ≤ added + 1 then (st', added + 1, evs ++ [.scheduledEv cand.id at_])
        else refillLoop s now need rest st' (added + 1) (evs ++ [.scheduledEv cand.id at_])

/-- Strictly-more-likes, the descending `.sort({'engagement.likes': -1})`. -/
def likesBefore (a b : Cand) : Bool := b.likes < a.likes

/-- `scheduleRefill(threshold = 3)`: top up the scheduled backlog from the
highest-engagement queued candidates.  Returns the new store, `added`, the
re-counted scheduled backlog, and the event trace. -/
noncomputable def scheduleRefill (threshold : Nat) (now : Int) (st : St) :
    St × Nat × Nat × List Ev :=
  let p := getOrCreateSettings st
  let s := p.1
  let st1 := p.2
  let scheduledCount := countStatus st1.queue .scheduled
  if scheduledCount < threshold then
    let need := threshold - scheduledCount
    let cands := (sortBy likesBefore (st1.queue.filter (fun c => c.status = .queued))).take 100
    let r := refillLoop s now need cands st1 0 []
    (r.1, r.2.1, countStatus r.1.queue .scheduled, r.2.2)
  else (st1, 0, countStatus st1.queue .scheduled, [])

/-! ## Pacing and due-posting engine -/

/-- The `for (const item of due)` loop of `postDueWithCaps`: skip while the
platform's trailing-hour count (updated in-tick) meets the cap; claim the
per-item lock; re-check duplicates; commit the post and append the memo. -/
noncomputable def postLoop (s : SettingsDoc) (now : Int) (cap : Nat) :
    List Cand → (Platform → Nat) → St → Nat → Nat → List Ev → St × Nat × Nat × List Ev
  | [], _, st, posted, skipped, evs => (st, posted, skipped, evs)
  | item :: rest, totals, st, posted, skipped, evs =>
    if cap ≤ totals item.platform then
      postLoop s now cap rest totals st posted skipped evs
    else
      let lk := tryAcquireLock now (postKey item.id) 120 st
      if lk.1 then
        let st1 := lk.2
        let dup := isDuplicateCandidate item s st1.posted
        if dup.duplicate then
          postLoop s now cap rest totals (setStatus st1 item.id .skipped) posted (skipped + 1)
            (evs ++ [.claimEv item.id, .skippedDupEv item.id (dup.reason.getD .duplicate_visual)])
        else
          let st2 := appendMemo (markPosted st1 item.id now) item now
          postLoop s now cap rest
            (fun p => if p = item.platform then totals p + 1 else totals p)
            st2 (posted + 1) skipped
            (evs ++ [.claimEv item.id, .postedEv item.id item.platform])
      else postLoop s now cap rest totals lk.2 posted skipped evs

/-- Earlier `scheduledAt` first, the ascending `.sort({scheduledAt: 1})`. -/
def dueBefore (a b : Cand) : Bool :=
  a.scheduledAt.getD 0 < b.scheduledAt.getD 0

/-- `postDueWithCaps()`: burst-aware effective cap, per-platform trailing-hour
counts, due items earliest first (batch of 50), then the posting loop. -/
noncomputable def postDueWithCaps (now : Int) (nowHHmm : String) (st : St) :
    St × Nat × Nat × List Ev :=
  let p := getOrCreateSettings st
  let s := p.1
  let st1 := p.2
  let hourAgo := now - 60 * 60 * 1000
  let totals : Platform → Nat := fun pl => countPostedSince st1.queue pl hourAgo
  let cap := effectiveHourlyLimit s nowHHmm
  let due := (sortBy dueBefore (st1.queue.filter
    (fun c => c.status = .scheduled ∧ schedDue c now))).take 50
  postLoop s now cap due totals st1 0 0 []

/-- The `for (const item of due)` loop of `postDueNow`: no cap and no claim
lock — re-check duplicates and post. -/
noncomputable def postNowLoop (s : SettingsDoc) (now : Int) :
    List Cand → St → Nat → Nat → List Ev → St × Nat × Nat × List Ev
  | [], st, posted, skipped, evs => (st, posted, skipped, evs)
  | item :: rest, st, posted, skipped, evs =>
    let dup := isDuplicateCandidate item s st.posted
    if dup.duplicate then
      postNowLoop s now rest (setStatus st item.id .skipped) posted (skipped + 1)
        (evs ++ [.skippedDupEv item.id (dup.reason.getD .duplicate_visual)])
    else
      let st1 := appendMemo (markPosted st item.id now) item now
      postNowLoop s now rest st1 (posted + 1) skipped (evs ++ [.postedEv item.id item.platform])

/-- `postDueNow()` (the `/api/post-now` and `/api/autopilot/manual-post`
operation): due items in store order (batch of 50), no claim locks. -/
noncomputable def postDueNow (now : Int) (st : St) : St × Nat × Nat × List Ev :=
  let due := (st.queue.filter (fun c => c.status = .scheduled ∧ schedDue c now)).take 50
  let p := getOrCreateSettings st
  postNowLoop p.1 now due p.2 0 0 []

/-! ## Tick orchestration -/

/-- One body of the `setInterval` tick: attempt the global `scheduler` lock
(TTL 55s); on failure do nothing else; on success run refill then pacing. -/
noncomputable def runTick (now : Int) (nowHHmm : String) (st : St) : St :=
  let lk := tryAcquireLock now "scheduler" 55 st
  if lk.1 then
    let r := scheduleRefill 3 now lk.2
    (postDueWithCaps now nowHHmm r.1).1
  else lk.2

/-! ## Basic lemmas -/

theorem popCountLoop_zero : popCountLoop 0 = 0 := by
  rw [popCountLoop]
  simp

theorem hamming_self {a : String} (h : a ≠ "") : hammingDistanceHex a a = 0 := by
  unfold hammingDistanceHex
  rw [if_neg (by simp [h]), Nat.xor_self, popCountLoop_zero]

theorem hamming_comm (a b : String) : hammingDistanceHex a b = hammingDistanceHex b a := by
  unfold hammingDistanceHex
  by_cases h : a = "" ∨ b = ""
  · rw [if_pos h, if_pos h.symm]
  · rw [if_neg h, if_neg (fun hb => h hb.symm), Nat.xor_comm]

/-! ## Claim C8 -/

/-- Claim C8 counterexample: the self-distance of the empty hex string is not
`0` — the falsy guard `if (!a || !b) return 9999` fires first, so
`hammingDistanceHex("", "")` is the sentinel `9999`. -/
theorem claim_C8_counterexample : ¬ hammingDistanceHex "" "" = 0 := by decide

/-- Claim C8 (amended): for every NON-EMPTY hex string `a`,
`hammingDistanceHex(a, a) = 0`, and for all hex strings `a`, `b`,
`hammingDistanceHex(a, b) = hammingDistanceHex(b, a)`.  (On the empty string
the self-distance is the sentinel `9999`, not `0`.) -/
theorem claim_C8_theorem :
    (∀ a : String, a ≠ "" → hammingDistanceHex a a = 0) ∧
    (∀ a b : String, hammingDistanceHex a b = hammingDistanceHex b a) :=
  ⟨fun _ h => hamming_self h, hamming_comm⟩

/-- Claim C8 witness: the amended theorem evaluated at concrete hex strings. -/
theorem claim_C8_witness :
    hammingDistanceHex "ab" "ab" = 0 ∧
    hammingDistanceHex "ab" "cd" = hammingDistanceHex "cd" "ab" :=
  ⟨claim_C8_theorem.1 "ab" (by decide), claim_C8_theorem.2 "ab" "cd"⟩

/-! ## Claim C3 -/

/-- Claim C3, failing input: on two empty texts the similarity is `1`, not
`0`.  JavaScript's `''.split(' ')` is `['']`, a one-element array, so both
term maps are the non-empty `{'': 1}`, the `na === 0 || nb === 0` guard
(whose evident purpose is to return `0` for an empty multiset) is dead code,
and the function returns `1 / (sqrt 1 * sqrt 1) = 1`. -/
theorem claim_C3_theorem : cosineSimFromTokens "" "" = 1 := by
  unfold cosineSimFromTokens
  rw [if_neg (by decide),
    show dotNat (splitSpace "".data) (splitSpace "".data) = 1 from by decide,
    show normSq (splitSpace "".data) = 1 from by decide]
  norm_num

/-! ## Claim C4 -/

/-- The settings of the C4 counterexample: burst enabled, an all-day window,
and the configured burst `postsPerHour` equal to `0`. -/
def c4Settings : SettingsDoc :=
  { hourlyLimit := 3, burstModeEnabled := true,
    burstModeConfig := some { startTime := "00:00", endTime := "23:59", postsPerHour := 0 } }

/-- Claim C4 counterexample: with burst mode active and configured
`postsPerHour = 0`, the effective hourly cap is the default `hourlyLimit`
(`3`), not the configured `0` — `postsPerHour || hourlyLimit` treats `0` as
falsy. -/
theorem claim_C4_counterexample :
    burstActive c4Settings "12:00" = true ∧
    (c4Settings.burstModeConfig.map fun c => c.postsPerHour) = some 0 ∧
    ¬ effectiveHourlyLimit c4Settings "12:00" = 0 := by decide

/-- Claim C4 (amended): when burst is active the effective hourly cap is the
configured burst `postsPerHour` when that value is non-zero; a configured
`postsPerHour` of `0` (or an absent burst config) falls back to the default
`hourlyLimit`; when burst is not active the cap is the default `hourlyLimit`. -/
theorem claim_C4_theorem :
    ∀ (s : SettingsDoc) (nowHHmm : String),
      (∀ cfg, s.burstModeConfig = some cfg → burstActive s nowHHmm = true →
        cfg.postsPerHour ≠ 0 → effectiveHourlyLimit s nowHHmm = cfg.postsPerHour) ∧
      (∀ cfg, s.burstModeConfig = some cfg → burstActive s nowHHmm = true →
        cfg.postsPerHour = 0 → effectiveHourlyLimit s nowHHmm = s.hourlyLimit) ∧
      (s.burstModeConfig = none → effectiveHourlyLimit s nowHHmm = s.hourlyLimit) ∧
      (burstActive s nowHHmm = false → effectiveHourlyLimit s nowHHmm = s.hourlyLimit) := by
  intro s nowHHmm
  refine ⟨fun cfg hc hb hnz => ?_, fun cfg hc hb hz => ?_, fun hc => ?_, fun hb => ?_⟩
  · simp [effectiveHourlyLimit, hb, hc, hnz]
  · simp [effectiveHourlyLimit, hb, hc, hz]
  · simp [effectiveHourlyLimit, hc]
  · simp [effectiveHourlyLimit, hb]

/-- Claim C4 witness: the amended theorem at concrete settings — a non-zero
burst `postsPerHour = 5` overrides the default cap inside the window, and an
inactive burst leaves the default cap in place. -/
theorem claim_C4_witness :
    effectiveHourlyLimit { c4Settings with
      burstModeConfig := some { startTime := "00:00", endTime := "23:59", postsPerHour := 5 } }
      "12:00" = 5 ∧
    effectiveHourlyLimit { c4Settings with burstModeEnabled := false } "12:00" =
      ({ c4Settings with burstModeEnabled := false } : SettingsDoc).hourlyLimit :=
  ⟨(claim_C4_theorem _ "12:00").1 _ rfl (by decide) (by decide),
   (claim_C4_theorem _ "12:00").2.2.2 (by decide)⟩

/-! ## Claim C7 -/

/-- Claim C7: a tick whose global-lock acquisition fails mutates neither the
candidate store, nor the posted-record log, nor the settings — the entire
refill-and-pacing body is skipped. -/
theorem claim_C7_theorem :
    ∀ (now : Int) (nowHHmm : String) (st : St),
      (tryAcquireLock now "scheduler" 55 st).1 = false →
        (runTick now nowHHmm st).queue = st.queue ∧
        (runTick now nowHHmm st).posted = st.posted ∧
        (runTick now nowHHmm st).settings = st.settings := by
  intro now nowHHmm st h
  unfold runTick
  unfold tryAcquireLock at h ⊢
  by_cases hm : "scheduler" ∈ st.locks.map (fun l => l.1)
  · simp [hm]
  · simp [hm] at h

/-- Claim C7 witness: a concrete store in which the `scheduler` key is already
held, so the tick's lock attempt fails and the three stores are unchanged. -/
theorem claim_C7_witness :
    (runTick 0 "12:00" { locks := [("scheduler", 99)] }).queue =
      ({ locks := [("scheduler", 99)] } : St).queue ∧
    (runTick 0 "12:00" { locks := [("scheduler", 99)] }).posted =
      ({ locks := [("scheduler", 99)] } : St).posted ∧
    (runTick 0 "12:00" { locks := [("scheduler", 99)] }).settings =
      ({ locks := [("scheduler", 99)] } : St).settings :=
  claim_C7_theorem 0 "12:00" { locks := [("scheduler", 99)] } (by decide)

/-! ## Classifier lemmas -/

theorem loop_first_match (cn : String) (vh : Option String) (dur : Option ℚ) :
    ∀ (w : List Posted) (i : Nat) (hi : i < w.length) (r : Reason),
      (∀ j (hj : j < i), dupCheckItem cn vh dur (w.get ⟨j, Nat.lt_trans hj hi⟩) = none) →
      dupCheckItem cn vh dur (w.get ⟨i, hi⟩) = some r →
      isDuplicateLoop cn vh dur w = { duplicate := true, reason := some r } := by
  intro w
  induction w with
  | nil => intro i hi r; exact absurd hi (by simp)
  | cons a w ih =>
    intro i hi r hprev hcur
    cases i with
    | zero =>
      unfold isDuplicateLoop
      rw [show dupCheckItem cn vh dur a = some r from hcur]
    | succ i =>
      have h0 : dupCheckItem cn vh dur a = none := hprev 0 (Nat.succ_pos i)
      unfold isDuplicateLoop
      rw [h0]
      exact ih i (Nat.lt_of_succ_lt_succ hi) r
        (fun j hj => hprev (j + 1) (Nat.succ_lt_succ hj)) hcur

theorem loop_no_match (cn : String) (vh : Option String) (dur : Option ℚ) :
    ∀ (w : List Posted), (∀ it ∈ w, dupCheckItem cn vh dur it = none) →
      isDuplicateLoop cn vh dur w = { duplicate := false } := by
  intro w
  induction w with
  | nil => intro; rfl
  | cons a w ih =>
    intro h
    unfold isDuplicateLoop
    rw [h a (by simp)]
    exact ih (fun it hit => h it (by simp [hit]))

/-- Unfolding of the squared norm and the guard: both token multisets are
always non-empty, because `split(' ')` never returns an empty array. -/
theorem splitSpace_ne_nil (l : List Char) : splitSpace l ≠ [] := by
  cases l with
  | nil => simp [splitSpace]
  | cons c cs =>
    unfold splitSpace
    cases h : splitSpace cs with
    | nil => simp
    | cons t ts => by_cases hc : c = ' ' <;> simp [hc]

theorem normSq_ne_zero (l : List Char) : normSq (splitSpace l) ≠ 0 := by
  cases h : splitSpace l with
  | nil => exact absurd h (splitSpace_ne_nil l)
  | cons t ts =>
    unfold normSq
    intro hz
    have ht : t ∈ (t :: ts).dedup := by simp [List.mem_dedup]
    have hc : 1 ≤ (t :: ts).count t := by
      have : t ∈ t :: ts := by simp
      simp [List.count_pos_iff, this]
    have hterm : 1 ≤ (t :: ts).count t * (t :: ts).count t :=
      Nat.one_le_iff_ne_zero.mpr (by positivity)
    have hmem : (t :: ts).count t * (t :: ts).count t ∈
        ((t :: ts).dedup.map (fun k => (t :: ts).count k * (t :: ts).count k)) :=
      List.mem_map_of_mem _ ht
    have := List.single_le_sum (fun x _ => Nat.zero_le x) _ hmem
    omega

/-- Evaluation helper: the similarity of two concrete captions in terms of the
integer dot product and squared norms. -/
theorem cosine_eval {a b : String} (d na nb : Nat)
    (hd : dotNat (splitSpace a.data) (splitSpace b.data) = d)
    (ha : normSq (splitSpace a.data) = na)
    (hb : normSq (splitSpace b.data) = nb) :
    cosineSimFromTokens a b = (d : ℝ) / (Real.sqrt na * Real.sqrt nb) := by
  unfold cosineSimFromTokens
  have hna : normSq (splitSpace a.data) ≠ 0 := normSq_ne_zero a.data
  have hnb : normSq (splitSpace b.data) ≠ 0 := normSq_ne_zero b.data
  rw [if_neg (by push_neg; exact ⟨hna, hnb⟩), hd, ha, hb]

/-! ## Claim C1 -/

/-- Claim C1: the duplicate classifier evaluates the recency window in order
and, per item, applies the three rules in order with short-circuit on the
first match — (1) visual-hash Hamming distance at most 8 gives
`duplicate_visual`; (2) otherwise caption similarity at least 0.92 gives
`duplicate_caption`; (3) otherwise similarity at least 0.85 with duration
delta at most 1 second gives `duplicate_caption_duration`; no rule matching
any item gives not-duplicate.  In particular a candidate with caption
similarity 0.95 to some window item, duration delta 5 seconds, and no
visual-hash match is classified `duplicate_caption`. -/
theorem claim_C1_theorem :
    (∀ (cn : String) (vh : Option String) (dur : Option ℚ) (it : Posted),
      (hammingDistanceHex (optStr vh) (optStr it.visualHash) ≤ 8 →
        dupCheckItem cn vh dur it = some .duplicate_visual) ∧
      (¬ hammingDistanceHex (optStr vh) (optStr it.visualHash) ≤ 8 →
        (0.92 : ℝ) ≤ cosineSimFromTokens cn it.captionNorm →
        dupCheckItem cn vh dur it = some .duplicate_caption) ∧
      (¬ hammingDistanceHex (optStr vh) (optStr it.visualHash) ≤ 8 →
        ¬ (0.92 : ℝ) ≤ cosineSimFromTokens cn it.captionNorm →
        (0.85 : ℝ) ≤ cosineSimFromTokens cn it.captionNorm →
        |durOr0 dur - durOr0 it.durationSec| ≤ 1 →
        dupCheckItem cn vh dur it = some .duplicate_caption_duration) ∧
      (¬ hammingDistanceHex (optStr vh) (optStr it.visualHash) ≤ 8 →
        ¬ (0.92 : ℝ) ≤ cosineSimFromTokens cn it.captionNorm →
        ¬ ((0.85 : ℝ) ≤ cosineSimFromTokens cn it.captionNorm ∧
           |durOr0 dur - durOr0 it.durationSec| ≤ 1) →
        dupCheckItem cn vh dur it = none)) ∧
    (∀ (cn : String) (vh : Option String) (dur : Option ℚ) (w : List Posted)
        (i : Nat) (hi : i < w.length) (r : Reason),
      (∀ j (hj : j < i), dupCheckItem cn vh dur (w.get ⟨j, Nat.lt_trans hj hi⟩) = none) →
      dupCheckItem cn vh dur (w.get ⟨i, hi⟩) = some r →
      isDuplicateLoop cn vh dur w = { duplicate := true, reason := some r }) ∧
    (∀ (cn : String) (vh : Option String) (dur : Option ℚ) (w : List Posted),
      (∀ it ∈ w, dupCheckItem cn vh dur it = none) →
      isDuplicateLoop cn vh dur w = { duplicate := false }) ∧
    (∀ (cn : String) (vh : Option String) (dur : Option ℚ) (it : Posted),
      cosineSimFromTokens cn it.captionNorm = 0.95 →
      ¬ hammingDistanceHex (optStr vh) (optStr it.visualHash) ≤ 8 →
      |durOr0 dur - durOr0 it.durationSec| = 5 →
      isDuplicateLoop cn vh dur [it] =
        { duplicate := true, reason := some .duplicate_caption }) := by
  refine ⟨fun cn vh dur it => ⟨fun h1 => ?_, fun h1 h2 => ?_, fun h1 h2 h3 h4 => ?_,
      fun h1 h2 h3 => ?_⟩,
    fun cn vh dur w i hi r => loop_first_match cn vh dur w i hi r,
    fun cn vh dur w => loop_no_match cn vh dur w,
    fun cn vh dur it hsim hham hdelta => ?_⟩
  · unfold dupCheckItem; rw [if_pos h1]
  · unfold dupCheckItem; rw [if_neg h1, if_pos h2]
  · unfold dupCheckItem; rw [if_neg h1, if_neg h2, if_pos ⟨h3, h4⟩]
  · unfold dupCheckItem; rw [if_neg h1, if_neg h2, if_neg h3]
  · have hitem : dupCheckItem cn vh dur it = some .duplicate_caption := by
      unfold dupCheckItem
      rw [if_neg hham, if_pos (by rw [hsim]; norm_num)]
    unfold isDuplicateLoop
    rw [hitem]

/-- The posted record of the C1 witness: an 11-token caption sharing enough
tokens with the candidate's 8-token caption for an exact similarity of
`19 / (sqrt 16 * sqrt 25) = 0.95`, a duration 5 seconds away, and no visual
hash. -/
def c1Item : Posted :=
  { platform := .instagram, postedAt := 0, visualHash := none,
    captionNorm := "a a a b b c c d d e e", durationSec := some 15 }

/-- Claim C1 witness: the 0.95-similarity conjunct of the theorem evaluated on
concrete captions (similarity exactly 0.95, duration delta 5, absent visual
hashes), yielding `duplicate_caption`. -/
theorem claim_C1_witness :
    isDuplicateLoop "a a a b b c d e" none (some 10) [c1Item] =
      { duplicate := true, reason := some .duplicate_caption } := by
  have hsim : cosineSimFromTokens "a a a b b c d e" c1Item.captionNorm = 0.95 := by
    rw [cosine_eval 19 16 25 (by decide) (by decide) (by decide),
      show ((16 : Nat) : ℝ) = 4 ^ 2 by norm_num, Real.sqrt_sq (by norm_num),
      show ((25 : Nat) : ℝ) = 5 ^ 2 by norm_num, Real.sqrt_sq (by norm_num)]
    norm_num
  exact claim_C1_theorem.2.2.2 _ none (some 10) c1Item hsim (by decide)
    (by norm_num [durOr0, c1Item])

/-! ## Claim C10 -/

/-- Claim C10: an absent `durationSec` is coerced to 0 on either side, so two
records that both lack a duration have delta 0, and caption similarity in
`[0.85, 0.92)` alone (no visual-hash match) yields
`duplicate_caption_duration` — absence of duration does not exempt a
candidate from the caption-plus-duration rule. -/
theorem claim_C10_theorem :
    (durOr0 none = 0) ∧
    (∀ (cn : String) (vh : Option String) (it : Posted),
      it.durationSec = none →
      ¬ hammingDistanceHex (optStr vh) (optStr it.visualHash) ≤ 8 →
      (0.85 : ℝ) ≤ cosineSimFromTokens cn it.captionNorm →
      ¬ (0.92 : ℝ) ≤ cosineSimFromTokens cn it.captionNorm →
      dupCheckItem cn vh none it = some .duplicate_caption_duration ∧
      isDuplicateLoop cn vh none [it] =
        { duplicate := true, reason := some .duplicate_caption_duration }) := by
  refine ⟨rfl, fun cn vh it hdur hham h85 h92 => ?_⟩
  have hitem : dupCheckItem cn vh none it = some .duplicate_caption_duration := by
    unfold dupCheckItem
    rw [if_neg hham, if_neg h92, if_pos ⟨h85, by simp [durOr0, hdur]⟩]
  refine ⟨hitem, ?_⟩
  unfold isDuplicateLoop
  rw [hitem]

/-- The posted record of the C10 witness: no visual hash, no duration, and a
caption 6 tokens out of 7 in common with the candidate's, for a similarity of
`6 / (sqrt 7 * sqrt 7) = 6/7 ∈ [0.85, 0.92)`. -/
def c10Item : Posted :=
  { platform := .instagram, postedAt := 0, visualHash := none,
    captionNorm := "a b c d e f h", durationSec := none }

/-- Claim C10 witness: the theorem evaluated on concrete captions with
similarity exactly 6/7 and both durations absent. -/
theorem claim_C10_witness :
    isDuplicateLoop "a b c d e f g" none none [c10Item] =
      { duplicate := true, reason := some .duplicate_caption_duration } := by
  have hsim : cosineSimFromTokens "a b c d e f g" c10Item.captionNorm = 6 / 7 := by
    rw [cosine_eval 6 7 7 (by decide) (by decide) (by decide),
      Real.mul_self_sqrt (by norm_num)]
    norm_num
  exact (claim_C10_theorem.2 _ none c10Item rfl (by decide)
    (by rw [hsim]; norm_num) (by rw [hsim]; norm_num)).2

/-! ## Canonical form of normalized captions

A normalized caption contains only `[a-z0-9# ]`, has no two adjacent spaces,
and neither starts nor ends with a space.  `normCore` always produces such a
string, and is the identity on such strings — whence idempotence. -/

/-- The characters that can appear in a fully normalized caption. -/
def keepK (c : Char) : Bool :=
  ('a' ≤ c ∧ c ≤ 'z') ∨ ('0' ≤ c ∧ c ≤ '9') ∨ c = '#' ∨ c = ' '

/-- No two adjacent spaces. -/
def noTwoSp : List Char → Bool
  | a :: b :: r => !(a = ' ' && b = ' ') && noTwoSp (b :: r)
  | _ => true

/-- The canonical form: only `[a-z0-9# ]`, no space runs, trimmed. -/
def Canon (l : List Char) : Prop :=
  (∀ c ∈ l, keepK c = true) ∧ noTwoSp l = true ∧
  l.head? ≠ some ' ' ∧ l.getLast? ≠ some ' '

theorem char_le_iff (a b : Char) : a ≤ b ↔ a.toNat ≤ b.toNat := by
  rw [Char.le_def]; rfl

theorem char_eq_iff (a b : Char) : a = b ↔ a.toNat = b.toNat :=
  ⟨congrArg _, fun h => Char.ext (UInt32.ext h)⟩

/-- The `keepK` classes as code-point ranges. -/
theorem keepK_ranges {c : Char} (h : keepK c = true) :
    (97 ≤ c.toNat ∧ c.toNat ≤ 122) ∨ (48 ≤ c.toNat ∧ c.toNat ≤ 57) ∨
    c.toNat = 35 ∨ c.toNat = 32 := by
  simp only [keepK, decide_eq_true_eq, char_le_iff, char_eq_iff] at h
  exact h

theorem jsWS_iff_codes {c : Char} : jsWS c = true ↔
    (c.toNat = 32 ∨ c.toNat = 9 ∨ c.toNat = 10 ∨ c.toNat = 0xb ∨ c.toNat = 0xc ∨
     c.toNat = 13 ∨ c.toNat = 0xa0 ∨ c.toNat = 0x1680 ∨
     (0x2000 ≤ c.toNat ∧ c.toNat ≤ 0x200a) ∨ c.toNat = 0x2028 ∨ c.toNat = 0x2029 ∨
     c.toNat = 0x202f ∨ c.toNat = 0x205f ∨ c.toNat = 0x3000 ∨ c.toNat = 0xfeff) := by
  simp only [jsWS, decide_eq_true_eq, char_eq_iff]
  rfl

theorem keepK_ws_iff {c : Char} (h : keepK c = true) : (jsWS c = true ↔ c = ' ') := by
  rw [jsWS_iff_codes, char_eq_iff]
  have := keepK_ranges h
  show _ ↔ c.toNat = 32
  omega

theorem jsLower_id_of_keepK {c : Char} (h : keepK c = true) : jsLower c = c := by
  unfold jsLower
  rw [if_neg]
  rw [char_le_iff, char_le_iff]
  have := keepK_ranges h
  show ¬ (65 ≤ c.toNat ∧ c.toNat ≤ 90)
  omega

theorem keepK_not_emoji {c : Char} (h : keepK c = true) :
    (!(0x1F600 ≤ c.toNat ∧ c.toNat ≤ 0x1F6FF)) = true := by
  have := keepK_ranges h
  simp only [Bool.not_eq_true', decide_eq_false_iff_not]
  omega

theorem keepK_ne_colon {c : Char} (h : keepK c = true) : c ≠ ':' := by
  intro hc
  have h2 := keepK_ranges h
  rw [char_eq_iff] at hc
  have h3 : c.toNat = 58 := hc
  omega

/-- The `keepChar` class as code-point ranges. -/
theorem keepChar_iff_codes {c : Char} : keepChar c = true ↔
    ((97 ≤ c.toNat ∧ c.toNat ≤ 122) ∨ (48 ≤ c.toNat ∧ c.toNat ≤ 57) ∨
     jsWS c = true ∨ c.toNat = 35) := by
  simp only [keepChar, decide_eq_true_eq, char_le_iff, char_eq_iff]
  rfl

theorem keepK_keepChar {c : Char} (h : keepK c = true) : keepChar c = true := by
  rw [keepChar_iff_codes]
  rcases keepK_ranges h with h1 | h1 | h1 | h1
  · exact Or.inl h1
  · exact Or.inr (Or.inl h1)
  · exact Or.inr (Or.inr (Or.inr h1))
  · refine Or.inr (Or.inr (Or.inl ?_))
    rw [jsWS_iff_codes]
    omega

theorem keepChar_not_ws {c : Char} (h : keepChar c = true) (hw : jsWS c = false) :
    keepK c = true := by
  simp only [keepChar, decide_eq_true_eq] at h
  rcases h with h1 | h1 | h1 | h1
  · simp [keepK, h1]
  · simp [keepK, h1]
  · rw [h1] at hw; exact absurd hw (by simp)
  · simp [keepK, h1]

theorem keepK_space : keepK ' ' = true := by decide

theorem jsWS_space : jsWS ' ' = true := by decide

/-! ### Stage identities on canonical strings -/

theorem map_jsLower_id {l : List Char} (h : ∀ c ∈ l, keepK c = true) :
    l.map jsLower = l := by
  rw [List.map_congr_left (fun c hc => jsLower_id_of_keepK (h c hc))]
  simp

theorem emojiStrip_id {l : List Char} (h : ∀ c ∈ l, keepK c = true) :
    emojiStrip l = l :=
  List.filter_eq_self.mpr (fun c hc => keepK_not_emoji (h c hc))

theorem dropPre_mem : ∀ (ps l r : List Char), dropPre ps l = some r →
    ∀ x ∈ ps, x ∈ l := by
  intro ps
  induction ps with
  | nil => intro l r _ x hx; exact absurd hx (by simp)
  | cons p ps ih =>
    intro l r h x hx
    cases l with
    | nil => exact absurd h (by simp [dropPre])
    | cons c cs =>
      rw [dropPre] at h
      by_cases hpc : p = c
      · rw [if_pos hpc] at h
        rcases List.mem_cons.mp hx with hx | hx
        · exact List.mem_cons.mpr (Or.inl (hx.trans hpc))
        · exact List.mem_cons.mpr (Or.inr (ih cs r h x hx))
      · rw [if_neg hpc] at h
        exact absurd h (by simp)

theorem urlTail_colon {pre s r : List Char} (h : urlTail pre s = some r)
    (hc : ':' ∈ pre) : ':' ∈ s := by
  unfold urlTail at h
  cases hd : dropPre pre s with
  | none => rw [hd] at h; exact absurd h (by simp)
  | some rest => exact dropPre_mem pre s rest hd ':' hc

theorem urlMatch_colon {s r : List Char} (h : urlMatch s = some r) : ':' ∈ s := by
  unfold urlMatch at h
  cases h8 : urlTail ('h' :: 't' :: 't' :: 'p' :: 's' :: ':' :: '/' :: '/' :: []) s with
  | some r8 => exact urlTail_colon h8 (by decide)
  | none =>
    rw [h8] at h
    exact urlTail_colon h (by decide)

theorem stripURLsGo_id : ∀ (fuel : Nat) (l : List Char), l.length ≤ fuel →
    (':' ∉ l) → stripURLsGo fuel l = l := by
  intro fuel
  induction fuel with
  | zero =>
    intro l hl _
    rw [List.length_eq_zero.mp (Nat.le_zero.mp hl)]
    rfl
  | succ fuel ih =>
    intro l hl hc
    cases l with
    | nil => rfl
    | cons c cs =>
      rw [stripURLsGo]
      cases hm : urlMatch (c :: cs) with
      | some rest => exact absurd (urlMatch_colon hm) hc
      | none =>
        have hl' : cs.length ≤ fuel := by simp at hl; omega
        rw [ih cs hl' (fun h => hc (List.mem_cons.mpr (Or.inr h)))]

theorem stripURLs_id {l : List Char} (h : ∀ c ∈ l, keepK c = true) :
    stripURLs l = l :=
  stripURLsGo_id l.length l le_rfl (fun hc => keepK_ne_colon (h ':' hc) rfl)

theorem charFilter_id {l : List Char} (h : ∀ c ∈ l, keepK c = true) :
    charFilter l = l := by
  unfold charFilter
  rw [List.map_congr_left (fun c hc => if_pos (keepK_keepChar (h c hc)))]
  simp

theorem charFilter_mem {l : List Char} : ∀ c ∈ charFilter l, keepChar c = true := by
  intro c hc
  rcases List.mem_map.mp hc with ⟨a, _, ha⟩
  by_cases hk : keepChar a = true
  · rw [if_pos hk] at ha; exact ha ▸ hk
  · rw [if_neg hk] at ha; exact ha ▸ (by decide)

/-! ### Properties of whitespace collapsing -/

theorem noTwoSp_cons_iff {a : Char} {l : List Char} :
    noTwoSp (a :: l) = true ↔
      (noTwoSp l = true ∧ (a = ' ' → l.head? ≠ some ' ')) := by
  cases l with
  | nil => simp [noTwoSp]
  | cons b r =>
    rw [noTwoSp]
    by_cases ha : a = ' ' <;> by_cases hb : b = ' ' <;> simp [ha, hb]

theorem noTwoSp_tail {a : Char} {l : List Char} (h : noTwoSp (a :: l) = true) :
    noTwoSp l = true :=
  (noTwoSp_cons_iff.mp h).1

theorem collapseGo_mem_keepK {l : List Char} (h : ∀ c ∈ l, keepChar c = true) :
    ∀ b, ∀ c ∈ collapseGo b l, keepK c = true := by
  induction l with
  | nil => intro b c hc; exact absurd hc (by simp [collapseGo])
  | cons a as ih =>
    intro b c hc
    have ha := h a (by simp)
    have hta : ∀ x ∈ as, keepChar x = true := fun x hx => h x (by simp [hx])
    rw [collapseGo] at hc
    by_cases hw : jsWS a
    · rw [if_pos hw] at hc
      by_cases hb : b
      · rw [if_pos hb] at hc
        exact ih hta true c hc
      · rw [if_neg hb] at hc
        rcases List.mem_cons.mp hc with hc | hc
        · rw [hc]; exact keepK_space
        · exact ih hta true c hc
    · rw [if_neg hw] at hc
      rcases List.mem_cons.mp hc with hc | hc
      · rw [hc]; exact keepChar_not_ws ha (by simpa using hw)
      · exact ih hta false c hc

theorem collapseGo_true_head : ∀ (l : List Char) (c : Char),
    (collapseGo true l).head? = some c → jsWS c = false := by
  intro l
  induction l with
  | nil => intro c hc; exact absurd hc (by simp [collapseGo])
  | cons a as ih =>
    intro c hc
    rw [collapseGo] at hc
    by_cases hw : jsWS a
    · rw [if_pos hw, if_pos rfl] at hc
      exact ih c hc
    · rw [if_neg hw] at hc
      simp at hc
      rw [← hc]
      simpa using hw

theorem collapseGo_noTwoSp : ∀ (l : List Char) (b : Bool),
    noTwoSp (collapseGo b l) = true := by
  intro l
  induction l with
  | nil => intro b; rfl
  | cons a as ih =>
    intro b
    rw [collapseGo]
    by_cases hw : jsWS a
    · rw [if_pos hw]
      by_cases hb : b
      · rw [if_pos hb]; exact ih true
      · rw [if_neg hb]
        rw [noTwoSp_cons_iff]
        refine ⟨ih true, fun _ hh => ?_⟩
        have := collapseGo_true_head as ' ' hh
        rw [jsWS_space] at this
        exact absurd this (by simp)
    · rw [if_neg hw]
      rw [noTwoSp_cons_iff]
      refine ⟨ih false, fun ha _ => ?_⟩
      rw [ha, jsWS_space] at hw
      exact hw (by simp)

theorem collapseGo_id {l : List Char} (hk : ∀ c ∈ l, keepK c = true)
    (hn : noTwoSp l = true) :
    collapseGo false l = l ∧ (l.head? ≠ some ' ' → collapseGo true l = l) := by
  induction l with
  | nil => exact ⟨rfl, fun _ => rfl⟩
  | cons a as ih =>
    have hka := hk a (by simp)
    have hkas : ∀ c ∈ as, keepK c = true := fun c hc => hk c (by simp [hc])
    have hnas := noTwoSp_tail hn
    have ihs := ih hkas hnas
    by_cases ha : a = ' '
    · have hw : jsWS a = true := by rw [ha]; exact jsWS_space
      constructor
      · rw [collapseGo, if_pos hw, if_neg (by simp)]
        have hhead : as.head? ≠ some ' ' := (noTwoSp_cons_iff.mp hn).2 ha
        rw [ihs.2 hhead, ha]
      · intro hh
        exact absurd (by simp [ha]) hh
    · have hw : jsWS a = false := by
        by_cases h : jsWS a
        · exact absurd ((keepK_ws_iff hka).mp h) ha
        · simpa using h
      constructor
      · rw [collapseGo, if_neg (by simp [hw]), ihs.1]
      · intro _
        rw [collapseGo, if_neg (by simp [hw]), ihs.1]

/-! ### noTwoSp under prefixes and suffixes -/

theorem noTwoSp_append_right : ∀ (t l : List Char),
    noTwoSp (t ++ l) = true → noTwoSp l = true := by
  intro t
  induction t with
  | nil => intro l h; exact h
  | cons a t ih => intro l h; exact ih l (noTwoSp_tail h)

theorem noTwoSp_append_left : ∀ (l t : List Char),
    noTwoSp (l ++ t) = true → noTwoSp l = true := by
  intro l
  induction l with
  | nil => intro t _; rfl
  | cons a l ih =>
    intro t h
    rw [List.cons_append, noTwoSp_cons_iff] at h
    rw [noTwoSp_cons_iff]
    refine ⟨ih t h.1, fun ha hh => ?_⟩
    apply h.2 ha
    cases l with
    | nil => exact absurd hh (by simp)
    | cons b r => simpa using hh

theorem noTwoSp_suffix {l l' : List Char} (h : l' <:+ l)
    (hn : noTwoSp l = true) : noTwoSp l' = true := by
  rcases h with ⟨t, ht⟩
  exact noTwoSp_append_right t l' (ht ▸ hn)

theorem noTwoSp_prefix {l l' : List Char} (h : l' <+: l)
    (hn : noTwoSp l = true) : noTwoSp l' = true := by
  rcases h with ⟨t, ht⟩
  exact noTwoSp_append_left l' t (ht ▸ hn)

/-! ### Trim -/

theorem dropWhile_head_false {p : Char → Bool} {l : List Char} {c : Char}
    (h : (l.dropWhile p).head? = some c) : p c = false := by
  induction l with
  | nil => simp [List.dropWhile] at h
  | cons a as ih =>
    rw [List.dropWhile] at h
    by_cases hp : p a
    · simp [hp] at h; exact ih h
    · simp [hp] at h; subst h; simpa using hp

theorem dropWhile_eq_self {p : Char → Bool} {l : List Char}
    (h : ∀ c, l.head? = some c → p c = false) : l.dropWhile p = l := by
  cases l with
  | nil => rfl
  | cons a as =>
    rw [List.dropWhile]
    simp [h a rfl]

theorem head?_mem {l : List Char} {c : Char} (h : l.head? = some c) : c ∈ l := by
  cases l with
  | nil => simp at h
  | cons a as => simp at h; simp [h]

theorem canon_jsTrim {l : List Char} (hk : ∀ c ∈ l, keepK c = true)
    (hn : noTwoSp l = true) : Canon (jsTrim l) := by
  have hres : jsTrim l = ((l.dropWhile jsWS).reverse.dropWhile jsWS).reverse := rfl
  have hsuf1 : (l.dropWhile jsWS) <:+ l := List.dropWhile_suffix jsWS
  have hsuf2 : ((l.dropWhile jsWS).reverse.dropWhile jsWS) <:+ (l.dropWhile jsWS).reverse :=
    List.dropWhile_suffix jsWS
  have hpre : jsTrim l <+: (l.dropWhile jsWS) := by
    rw [hres]
    apply List.reverse_suffix.mp
    rw [List.reverse_reverse]
    exact hsuf2
  have hmem : ∀ c ∈ jsTrim l, c ∈ l := by
    intro c hc
    exact hsuf1.subset (hpre.subset hc)
  refine ⟨fun c hc => hk c (hmem c hc), ?_, ?_, ?_⟩
  · exact noTwoSp_prefix hpre (noTwoSp_suffix hsuf1 hn)
  · intro hh
    have hx : ' ' ∈ jsTrim l := head?_mem hh
    rcases hpre with ⟨t, ht⟩
    have hhead : (l.dropWhile jsWS).head? = some ' ' := by
      rw [← ht]
      cases he : jsTrim l with
      | nil => rw [he] at hh; simp at hh
      | cons x xs =>
        rw [he] at hh
        simp at hh
        simp [he, hh]
    have := dropWhile_head_false hhead
    rw [jsWS_space] at this
    exact absurd this (by simp)
  · intro hh
    rw [hres, List.getLast?_reverse] at hh
    have := dropWhile_head_false hh
    rw [jsWS_space] at this
    exact absurd this (by simp)

theorem canon_normCore (l : List Char) : Canon (normCore l) := by
  unfold normCore
  apply canon_jsTrim
  · exact collapseGo_mem_keepK (fun c hc => charFilter_mem c hc) false
  · exact collapseGo_noTwoSp _ false

theorem normCore_id_of_canon {l : List Char} (h : Canon l) : normCore l = l := by
  obtain ⟨hk, hn, hh, hl⟩ := h
  unfold normCore
  rw [map_jsLower_id hk, emojiStrip_id hk, stripURLs_id hk, charFilter_id hk,
    show collapseWS l = l from (collapseGo_id hk hn).1]
  unfold jsTrim
  have h1 : l.dropWhile jsWS = l := by
    apply dropWhile_eq_self
    intro c hc
    have hkc := hk c (head?_mem hc)
    have hcs : c ≠ ' ' := fun he => hh (by rw [← he]; exact hc)
    by_cases hw : jsWS c
    · exact absurd ((keepK_ws_iff hkc).mp hw) hcs
    · simpa using hw
  rw [h1]
  have h2 : l.reverse.dropWhile jsWS = l.reverse := by
    apply dropWhile_eq_self
    intro c hc
    rw [List.head?_reverse] at hc
    have hkc := hk c (by
      have : c ∈ l.reverse := head?_mem (by rw [List.head?_reverse]; exact hc)
      simpa using this)
    have hcs : c ≠ ' ' := fun he => hl (by rw [← he]; exact hc)
    by_cases hw : jsWS c
    · exact absurd ((keepK_ws_iff hkc).mp hw) hcs
    · simpa using hw
  rw [h2, List.reverse_reverse]

/-! ## Claim C9 -/

/-- Claim C9: `normalizeCaption` is idempotent.  Its output is canonical —
only `[a-z0-9# ]`, single spaces, trimmed — and every pipeline stage
(lowercasing, emoji stripping, URL stripping, the character filter, whitespace
collapsing, trimming) is the identity on canonical strings. -/
theorem claim_C9_theorem :
    ∀ s : String, normalizeCaption (normalizeCaption s) = normalizeCaption s := by
  intro s
  have h : normCore (normCore s.data) = normCore s.data :=
    normCore_id_of_canon (canon_normCore s.data)
  show String.mk (normCore (String.mk (normCore s.data)).data) = String.mk (normCore s.data)
  exact congrArg String.mk h

/-! ## Refill scheduler lemmas -/

/-- The `scheduledAt` stamps of the schedule events in a trace, in order. -/
def schedTimes (evs : List Ev) : List Int :=
  evs.filterMap (fun e => match e with | .scheduledEv _ t => some t | _ => none)

theorem schedTimes_append (evs evs' : List Ev) :
    schedTimes (evs ++ evs') = schedTimes evs ++ schedTimes evs' := by
  simp [schedTimes]

theorem schedTimes_skip (evs : List Ev) (i : Nat) (r : Reason) :
    schedTimes (evs ++ [.skippedDupEv i r]) = schedTimes evs := by
  simp [schedTimes]

theorem schedTimes_sched (evs : List Ev) (i : Nat) (t : Int) :
    schedTimes (evs ++ [.scheduledEv i t]) = schedTimes evs ++ [t] := by
  simp [schedTimes]

set_option maxRecDepth 4000 in
/-- The stagger formula: the i-th promotion of a refill loop entered with
accumulator `added` is stamped `now + ((added + i)*60 + 30)` seconds. -/
theorem refill_sched_times (s : SettingsDoc) (now : Int) (need : Nat) :
    ∀ (cands : List Cand) (st : St) (added : Nat) (evs : List Ev),
      added ≤ (refillLoop s now need cands st added evs).2.1 ∧
      schedTimes (refillLoop s now need cands st added evs).2.2 =
        schedTimes evs ++
          (List.range ((refillLoop s now need cands st added evs).2.1 - added)).map
            (fun i : Nat => now + (((added : Int) + (i : Int)) * 60 + 30) * 1000) := by
  intro cands
  induction cands with
  | nil =>
    intro st added evs
    refine ⟨le_rfl, ?_⟩
    simp [refillLoop]
  | cons cand rest ih =>
    intro st added evs
    rw [refillLoop]
    by_cases h1 : cand.platform = .instagram ∧ cand.likes < s.minimumIGLikesToRepost
    · rw [if_pos h1]; exact ih st added evs
    · rw [if_neg h1]
      simp only []
      by_cases h2 : (isDuplicateCandidate cand s st.posted).duplicate = true
      · rw [if_pos h2]
        have hIH := ih (setStatus st cand.id .skipped) added
          (evs ++ [.skippedDupEv cand.id
            ((isDuplicateCandidate cand s st.posted).reason.getD .duplicate_visual)])
        rw [schedTimes_skip] at hIH
        exact hIH
      · rw [if_neg h2]
        by_cases h3 : need ≤ added + 1
        · rw [if_pos h3]
          refine ⟨Nat.le_succ added, ?_⟩
          rw [schedTimes_sched]
          have h4 : added + 1 - added = 1 := by omega
          rw [h4, show List.range 1 = [0] from rfl, List.map_singleton]
          simp
        · rw [if_neg h3]
          obtain ⟨hle, heq⟩ := ih
            ({ st with queue := (updateById cand.id (fun c =>
                { c with captionNorm := normalizeCaption c.caption,
                         status := .scheduled,
                         scheduledAt := some (now + (added * 60 + 30) * 1000) }) st.queue) })
            (added + 1) (evs ++ [.scheduledEv cand.id (now + (added * 60 + 30) * 1000)])
          refine ⟨le_trans (Nat.le_succ added) hle, ?_⟩
          rw [heq, schedTimes_sched, List.append_assoc]
          congr 1
          set A := (refillLoop s now need rest _ (added + 1)
            (evs ++ [.scheduledEv cand.id (now + (added * 60 + 30) * 1000)])).2.1 with hA
          have hsplit : A - added = (A - (added + 1)) + 1 := by omega
          rw [hsplit, List.range_succ_eq_map, List.map_cons, List.map_map,
            List.singleton_append, List.cons_eq_cons]
          constructor
          · push_cast; ring
          · apply List.map_congr_left
            intro i _
            simp only [Function.comp_apply]
            push_cast
            ring

/-- The refill loop never promotes past `need`. -/
theorem refill_added_le (s : SettingsDoc) (now : Int) (need : Nat) :
    ∀ (cands : List Cand) (st : St) (added : Nat) (evs : List Ev),
      added < need → (refillLoop s now need cands st added evs).2.1 ≤ need := by
  intro cands
  induction cands with
  | nil => intro st added evs h; exact le_of_lt h
  | cons cand rest ih =>
    intro st added evs h
    rw [refillLoop]
    by_cases h1 : cand.platform = .instagram ∧ cand.likes < s.minimumIGLikesToRepost
    · rw [if_pos h1]; exact ih st added evs h
    · rw [if_neg h1]
      simp only []
      by_cases h2 : (isDuplicateCandidate cand s st.posted).duplicate = true
      · rw [if_pos h2]; exact ih _ added _ h
      · rw [if_neg h2]
        by_cases h3 : need ≤ added + 1
        · rw [if_pos h3]
          show added + 1 ≤ need
          omega
        · rw [if_neg h3]
          exact ih _ (added + 1) _ (by omega)

theorem mem_insertBy {before : Cand → Cand → Bool} {a c : Cand} :
    ∀ {l : List Cand}, c ∈ insertBy before a l ↔ c = a ∨ c ∈ l := by
  intro l
  induction l with
  | nil => simp [insertBy]
  | cons b bs ih =>
    rw [insertBy]
    by_cases hb : before a b
    · rw [if_pos hb]
      exact List.mem_cons
    · rw [if_neg hb]
      rw [List.mem_cons, ih, List.mem_cons]
      tauto

/-- Insertion into a descending-likes-sorted list keeps it sorted. -/
theorem insertBy_likes_sorted (a : Cand) :
    ∀ (l : List Cand), List.Pairwise (fun x y => y.likes ≤ x.likes) l →
      List.Pairwise (fun x y => y.likes ≤ x.likes) (insertBy likesBefore a l) := by
  intro l
  induction l with
  | nil => intro _; simp [insertBy]
  | cons b bs ih =>
    intro hp
    rw [insertBy]
    by_cases hb : likesBefore a b
    · rw [if_pos hb]
      have hba : b.likes < a.likes := by simpa [likesBefore] using hb
      refine List.Pairwise.cons ?_ hp
      intro c hc
      rcases List.mem_cons.mp hc with hc | hc
      · rw [hc]; exact le_of_lt hba
      · exact le_trans (List.rel_of_pairwise_cons hp hc) (le_of_lt hba)
    · rw [if_neg hb]
      have hab : a.likes ≤ b.likes := by
        have hb' : ¬ b.likes < a.likes := by simpa [likesBefore] using hb
        omega
      refine List.Pairwise.cons ?_ (ih (List.Pairwise.sublist (List.sublist_cons_self b bs) hp))
      intro c hc
      rcases mem_insertBy.mp hc with hc | hc
      · rw [hc]; exact hab
      · exact List.rel_of_pairwise_cons hp hc

/-- The refill candidate scan really is in descending engagement order. -/
theorem sortBy_likes_sorted :
    ∀ (l : List Cand), List.Pairwise (fun x y => y.likes ≤ x.likes) (sortBy likesBefore l) := by
  intro l
  induction l with
  | nil => simp [sortBy]
  | cons a as ih => exact insertBy_likes_sorted a (sortBy likesBefore as) ih

/-- The C5 scenario: five queued Instagram candidates with engagements
1400, 1200, 900, 750, 450 (stored unsorted), an empty posted log, default
settings, target backlog 3. -/
def c5St : St :=
  { queue :=
      [⟨1, .instagram, "v one", "", 900, .queued, none, none, none, none, none⟩,
       ⟨2, .instagram, "v two", "", 1400, .queued, none, none, none, none, none⟩,
       ⟨3, .instagram, "v three", "", 450, .queued, none, none, none, none, none⟩,
       ⟨4, .instagram, "v four", "", 1200, .queued, none, none, none, none, none⟩,
       ⟨5, .instagram, "v five", "", 750, .queued, none, none, none, none, none⟩],
    settings := some {} }

/-! ## Claim C5 -/

/-- Claim C5: refill considers queued candidates in descending engagement
order; the i-th candidate promoted in one invocation (entered with
accumulator `added`) is stamped `scheduledAt = now + (30 + 60·(added+i))`
seconds, so successive promotions are staggered; the loop never promotes past
`need = targetBacklog − scheduled count`; and in the concrete scenario
(target 3, zero scheduled, five eligible non-duplicate candidates of
engagements 1400/1200/900/750/450) exactly the top 3 by engagement are
promoted, with strictly increasing `scheduledAt` 30s, 90s, 150s. -/
theorem claim_C5_theorem :
    (∀ (l : List Cand),
      List.Pairwise (fun x y => y.likes ≤ x.likes) (sortBy likesBefore l)) ∧
    (∀ (s : SettingsDoc) (now : Int) (need : Nat) (cands : List Cand) (st : St)
        (added : Nat) (evs : List Ev),
      added ≤ (refillLoop s now need cands st added evs).2.1 ∧
      schedTimes (refillLoop s now need cands st added evs).2.2 =
        schedTimes evs ++
          (List.range ((refillLoop s now need cands st added evs).2.1 - added)).map
            (fun i : Nat => now + (((added : Int) + (i : Int)) * 60 + 30) * 1000)) ∧
    (∀ (s : SettingsDoc) (now : Int) (need : Nat) (cands : List Cand) (st : St)
        (added : Nat) (evs : List Ev),
      added < need → (refillLoop s now need cands st added evs).2.1 ≤ need) ∧
    (((scheduleRefill 3 0 c5St).1.queue.map (fun c => (c.id, c.status, c.scheduledAt))) =
      [(1, .scheduled, some 150000), (2, .scheduled, some 30000), (3, .queued, none),
       (4, .scheduled, some 90000), (5, .queued, none)] ∧
     (scheduleRefill 3 0 c5St).2.1 = 3 ∧
     (30000 : Int) < 90000 ∧ (90000 : Int) < 150000) :=
  ⟨sortBy_likes_sorted,
   fun s now need cands st added evs => refill_sched_times s now need cands st added evs,
   fun s now need cands st added evs h => refill_added_le s now need cands st added evs h,
   by decide⟩

/-- Claim C5 witness: the stagger formula and the stop bound instantiated on
a concrete one-candidate loop (accumulator 0, need 2): the single promotion is
stamped `now + 30s` and the count stays at or below `need`. -/
theorem claim_C5_witness :
    schedTimes (refillLoop {} 0 2
        [⟨7, .instagram, "w", "", 10, .queued, none, none, none, none, none⟩]
        { settings := some {} } 0 []).2.2 =
      schedTimes [] ++
        (List.range ((refillLoop {} 0 2
          [⟨7, .instagram, "w", "", 10, .queued, none, none, none, none, none⟩]
          { settings := some {} } 0 []).2.1 - 0)).map
          (fun i : Nat => (0 : Int) + (((0 : Nat) : Int) + (i : Int)) * 60 * 1000 + 30 * 1000) ∧
    (refillLoop {} 0 2
        [⟨7, .instagram, "w", "", 10, .queued, none, none, none, none, none⟩]
        { settings := some {} } 0 []).2.1 ≤ 2 := by
  constructor
  · rw [(claim_C5_theorem.2.1 {} 0 2
      [⟨7, .instagram, "w", "", 10, .queued, none, none, none, none, none⟩]
      { settings := some {} } 0 []).2]
    decide
  · exact claim_C5_theorem.2.2.1 {} 0 2
      [⟨7, .instagram, "w", "", 10, .queued, none, none, none, none, none⟩]
      { settings := some {} } 0 [] (by decide)

/-! ## Pacing-loop lemmas -/

/-- Number of successful posts for platform `p` recorded in a trace. -/
def postedEvCount (p : Platform) (evs : List Ev) : Nat :=
  (evs.filter (fun e => match e with | .postedEv _ q => q = p | _ => false)).length

theorem postedEvCount_append (p : Platform) (evs evs' : List Ev) :
    postedEvCount p (evs ++ evs') = postedEvCount p evs + postedEvCount p evs' := by
  simp [postedEvCount]

theorem updateById_filter_id (f : Cand → Cand) (hf : ∀ c, (f c).id = c.id)
    {j i : Nat} (hne : ¬ j = i) :
    ∀ (q : List Cand),
      (updateById j f q).filter (fun c => c.id = i) = q.filter (fun c => c.id = i) := by
  intro q
  induction q with
  | nil => rfl
  | cons c q ih =>
    rw [updateById] at ih ⊢
    rw [List.map_cons, List.filter_cons, List.filter_cons]
    by_cases hc : c.id = j
    · rw [if_pos hc]
      have h1 : ((f c).id = i) = False := by
        rw [hf c, hc]; simp [hne]
      have h2 : (c.id = i) = False := by rw [hc]; simp [hne]
      simp only [h1, h2, decide_False, Bool.false_eq_true, if_false, ih]
    · rw [if_neg hc, ih]

theorem updateById_filter_platform (f : Cand → Cand)
    (hfp : ∀ c, (f c).platform = c.platform) {j : Nat} {p : Platform} :
    ∀ (q : List Cand), (∀ c ∈ q, c.id = j → ¬ c.platform = p) →
      (updateById j f q).filter (fun c => c.platform = p) =
        q.filter (fun c => c.platform = p) := by
  intro q
  induction q with
  | nil => intro _; rfl
  | cons c q ih =>
    intro hcoh
    rw [updateById] at ih ⊢
    rw [List.map_cons, List.filter_cons, List.filter_cons]
    have ih' := ih (fun c hc hj => hcoh c (by simp [hc]) hj)
    by_cases hc : c.id = j
    · have hnp : ¬ c.platform = p := hcoh c (by simp) hc
      rw [if_pos hc]
      have h1 : ((f c).platform = p) = False := by rw [hfp c]; simp [hnp]
      have h2 : (c.platform = p) = False := by simp [hnp]
      simp only [h1, h2, decide_False, Bool.false_eq_true, if_false, ih']
    · rw [if_neg hc, ih']

theorem mem_updateById_of_ne {j : Nat} {f : Cand → Cand} {q : List Cand} {c : Cand}
    (hc : c ∈ q) (hne : ¬ c.id = j) : c ∈ updateById j f q := by
  unfold updateById
  rcases List.mem_map.mp (List.mem_map_of_mem id hc) with _
  have : (if c.id = j then f c else c) ∈ q.map (fun x => if x.id = j then f x else x) :=
    List.mem_map_of_mem _ hc
  rw [if_neg hne] at this
  exact this

/-- The pacing loop only ever adds lock records. -/
theorem postLoop_locks_mono (s : SettingsDoc) (now : Int) (cap : Nat) :
    ∀ (due : List Cand) (totals : Platform → Nat) (st : St) (p sk : Nat)
      (evs : List Ev) (k : String),
      k ∈ st.locks.map (fun l => l.1) →
      k ∈ (postLoop s now cap due totals st p sk evs).1.locks.map (fun l => l.1) := by
  intro due
  induction due with
  | nil => intro totals st p sk evs k hk; exact hk
  | cons d rest ih =>
    intro totals st p sk evs k hk
    rw [postLoop]
    by_cases hg : cap ≤ totals d.platform
    · rw [if_pos hg]; exact ih totals st p sk evs k hk
    · rw [if_neg hg]
      by_cases hl : postKey d.id ∈ st.locks.map (fun l => l.1)
      · have hlk : tryAcquireLock now (postKey d.id) 120 st = (false, st) := by
          simp [tryAcquireLock, hl]
        rw [hlk]
        simp only [Bool.false_eq_true, if_false]
        exact ih totals st p sk evs k hk
      · have hlk : tryAcquireLock now (postKey d.id) 120 st =
            (true, { st with locks := st.locks ++ [(postKey d.id, now + 120 * 1000)] }) := by
          simp [tryAcquireLock, hl]
        rw [hlk]
        simp only [if_true]
        have hk' : k ∈ ({ st with locks := st.locks ++ [(postKey d.id, now + 120 * 1000)] } : St).locks.map
            (fun l => l.1) := by
          simp only [List.map_append, List.mem_append]
          exact Or.inl hk
        by_cases hd : (isDuplicateCandidate d s
            ({ st with locks := st.locks ++ [(postKey d.id, now + 120 * 1000)] } : St).posted).duplicate = true
        · rw [if_pos hd]
          exact ih _ _ _ _ _ k hk'
        · rw [if_neg hd]
          exact ih _ _ _ _ _ k hk'

theorem updateById_map_id (f : Cand → Cand) (hf : ∀ c, (f c).id = c.id) (j : Nat)
    (q : List Cand) : (updateById j f q).map (fun c => c.id) = q.map (fun c => c.id) := by
  unfold updateById
  rw [List.map_map]
  apply List.map_congr_left
  intro c _
  simp only [Function.comp_apply]
  by_cases hc : c.id = j
  · rw [if_pos hc, hf c]
  · rw [if_neg hc]

/-- Due items whose id is not scanned are untouched by the pacing loop. -/
theorem postLoop_filter_frame (s : SettingsDoc) (now : Int) (cap : Nat) :
    ∀ (due : List Cand) (totals : Platform → Nat) (st : St) (p sk : Nat)
      (evs : List Ev) (i : Nat),
      (∀ d ∈ due, ¬ d.id = i) →
      (postLoop s now cap due totals st p sk evs).1.queue.filter (fun c => c.id = i) =
        st.queue.filter (fun c => c.id = i) := by
  intro due
  induction due with
  | nil => intro totals st p sk evs i _; rfl
  | cons d rest ih =>
    intro totals st p sk evs i hni
    have hdi : ¬ d.id = i := hni d (by simp)
    have hrest : ∀ d' ∈ rest, ¬ d'.id = i := fun d' hd' => hni d' (by simp [hd'])
    rw [postLoop]
    by_cases hg : cap ≤ totals d.platform
    · rw [if_pos hg]; exact ih totals st p sk evs i hrest
    · rw [if_neg hg]
      by_cases hl : postKey d.id ∈ st.locks.map (fun l => l.1)
      · have hlk : tryAcquireLock now (postKey d.id) 120 st = (false, st) := by
          simp [tryAcquireLock, hl]
        rw [hlk]
        simp only [Bool.false_eq_true, if_false]
        exact ih totals st p sk evs i hrest
      · have hlk : tryAcquireLock now (postKey d.id) 120 st =
            (true, { st with locks := st.locks ++ [(postKey d.id, now + 120 * 1000)] }) := by
          simp [tryAcquireLock, hl]
        rw [hlk]
        simp only [if_true]
        by_cases hd : (isDuplicateCandidate d s
            ({ st with locks := st.locks ++ [(postKey d.id, now + 120 * 1000)] } : St).posted).duplicate = true
        · rw [if_pos hd]
          rw [ih _ _ _ _ _ i hrest]
          exact updateById_filter_id (fun c => { c with status := Status.skipped })
            (fun c => rfl) hdi st.queue
        · rw [if_neg hd]
          rw [ih _ _ _ _ _ i hrest]
          exact updateById_filter_id
            (fun c => { c with status := Status.posted, postedAt := some now })
            (fun c => rfl) hdi st.queue

/-- Core of claim C2 for the pacing loop: an item that goes from `scheduled`
to `posted` during the loop has its `post:<id>` claim key present in the final
lock store and absent from the initial one — the claim was acquired by this
very operation before the commit. -/
theorem postLoop_claim_lock (s : SettingsDoc) (now : Int) (cap : Nat) :
    ∀ (due : List Cand) (totals : Platform → Nat) (st : St) (p sk : Nat)
      (evs : List Ev),
      (st.queue.map (fun c => c.id)).Nodup →
      (due.map (fun d => d.id)).Nodup →
      ∀ c c', c ∈ st.queue → c.status = .scheduled →
        c' ∈ (postLoop s now cap due totals st p sk evs).1.queue → c'.id = c.id →
        c'.status = .posted →
        postKey c.id ∈ (postLoop s now cap due totals st p sk evs).1.locks.map (fun l => l.1) ∧
        postKey c.id ∉ st.locks.map (fun l => l.1) := by
  intro due
  induction due with
  | nil =>
    intro totals st p sk evs hqn _ c c' hc hcs hc' hid hps
    have : c' = c := List.inj_on_of_nodup_map hqn hc' hc hid
    rw [this] at hps
    rw [hps] at hcs
    exact absurd hcs (by simp)
  | cons d rest ih =>
    intro totals st p sk evs hqn hdn c c' hc hcs hc' hid hps
    have hdrest : (rest.map (fun d => d.id)).Nodup := by
      rw [List.map_cons] at hdn
      exact hdn.of_cons
    rw [postLoop] at hc' ⊢
    by_cases hg : cap ≤ totals d.platform
    · rw [if_pos hg] at hc' ⊢
      exact ih totals st p sk evs hqn hdrest c c' hc hcs hc' hid hps
    · rw [if_neg hg] at hc' ⊢
      by_cases hl : postKey d.id ∈ st.locks.map (fun l => l.1)
      · have hlk : tryAcquireLock now (postKey d.id) 120 st = (false, st) := by
          simp [tryAcquireLock, hl]
        rw [hlk] at hc' ⊢
        simp only [Bool.false_eq_true, if_false] at hc' ⊢
        exact ih totals st p sk evs hqn hdrest c c' hc hcs hc' hid hps
      · have hlk : tryAcquireLock now (postKey d.id) 120 st =
            (true, { st with locks := st.locks ++ [(postKey d.id, now + 120 * 1000)] }) := by
          simp [tryAcquireLock, hl]
        rw [hlk] at hc' ⊢
        simp only [if_true] at hc' ⊢
        set st1 : St := { st with locks := st.locks ++ [(postKey d.id, now + 120 * 1000)] }
          with hst1
        have hlock_sub : ∀ k : String, k ∉ st1.locks.map (fun l => l.1) →
            k ∉ st.locks.map (fun l => l.1) := by
          intro k hk hmem
          apply hk
          rw [hst1]
          simp only [List.map_append, List.mem_append]
          exact Or.inl hmem
        by_cases hd : (isDuplicateCandidate d s st1.posted).duplicate = true
        · rw [if_pos hd] at hc' ⊢
          by_cases hcd : c.id = d.id
          · -- the scanned item is marked `skipped`; nothing with this id can
            -- end up `posted` because the rest of the loop never revisits it
            exfalso
            have hnd : ∀ d' ∈ rest, ¬ d'.id = c.id := by
              intro d' hd' he
              rw [List.map_cons] at hdn
              have hm : d'.id ∈ rest.map (fun d => d.id) := List.mem_map_of_mem _ hd'
              rw [he, hcd] at hm
              exact (List.nodup_cons.mp hdn).1 hm
            have hfr := postLoop_filter_frame s now cap rest totals
              (setStatus st1 d.id .skipped) p (sk + 1)
              (evs ++ [.claimEv d.id, .skippedDupEv d.id
                ((isDuplicateCandidate d s st1.posted).reason.getD .duplicate_visual)])
              c.id hnd
            have hc'f : c' ∈ ((setStatus st1 d.id .skipped).queue.filter
                (fun x => x.id = c.id)) := by
              rw [← hfr]
              exact List.mem_filter.mpr ⟨hc', by simp [hid]⟩
            have hc'q := (List.mem_filter.mp hc'f).1
            rcases List.mem_map.mp hc'q with ⟨x, _, hx⟩
            by_cases hxd : x.id = d.id
            · rw [if_pos hxd] at hx
              rw [← hx] at hps
              simp at hps
            · rw [if_neg hxd] at hx
              have : c'.id = x.id := by rw [← hx]
              rw [hid, hcd] at this
              exact hxd this.symm
          · have hcq : c ∈ (setStatus st1 d.id .skipped).queue :=
              mem_updateById_of_ne hc hcd
            have hqn' : ((setStatus st1 d.id .skipped).queue.map (fun c => c.id)).Nodup := by
              show ((updateById d.id (fun c => { c with status := Status.skipped })
                st.queue).map (fun c => c.id)).Nodup
              rw [updateById_map_id (fun c => { c with status := Status.skipped })
                (fun c => rfl)]
              exact hqn
            have := ih _ _ _ _ _ hqn' hdrest c c' hcq hcs hc' hid hps
            exact ⟨this.1, hlock_sub _ this.2⟩
        · rw [if_neg hd] at hc' ⊢
          by_cases hcd : c.id = d.id
          · refine ⟨?_, by rw [hcd]; exact hl⟩
            apply postLoop_locks_mono
            rw [hcd]
            show postKey d.id ∈ (appendMemo (markPosted st1 d.id now) d now).locks.map
              (fun l => l.1)
            show postKey d.id ∈ st1.locks.map (fun l => l.1)
            rw [hst1]
            simp
          · have hcq : c ∈ (appendMemo (markPosted st1 d.id now) d now).queue :=
              mem_updateById_of_ne hc hcd
            have hqn' : ((appendMemo (markPosted st1 d.id now) d now).queue.map
                (fun c => c.id)).Nodup := by
              show ((updateById d.id
                (fun c => { c with status := Status.posted, postedAt := some now })
                st.queue).map (fun c => c.id)).Nodup
              rw [updateById_map_id
                (fun c => { c with status := Status.posted, postedAt := some now })
                (fun c => rfl)]
              exact hqn
            have := ih _ _ _ _ _ hqn' hdrest c c' hcq hcs hc' hid hps
            exact ⟨this.1, hlock_sub _ this.2⟩

theorem insertBy_perm {α : Type} (before : α → α → Bool) (a : α) :
    ∀ l : List α, List.Perm (insertBy before a l) (a :: l) := by
  intro l
  induction l with
  | nil => simp [insertBy]
  | cons b bs ih =>
    rw [insertBy]
    by_cases hb : before a b
    · rw [if_pos hb]
    · rw [if_neg hb]
      exact (List.Perm.cons b ih).trans (List.Perm.swap a b bs)

theorem sortBy_perm {α : Type} (before : α → α → Bool) :
    ∀ l : List α, List.Perm (sortBy before l) l := by
  intro l
  induction l with
  | nil => exact List.Perm.refl _
  | cons a as ih =>
    rw [sortBy]
    exact (insertBy_perm before a (sortBy before as)).trans (List.Perm.cons a ih)

theorem getOrCreateSettings_frame (st : St) :
    (getOrCreateSettings st).2.queue = st.queue ∧
    (getOrCreateSettings st).2.posted = st.posted ∧
    (getOrCreateSettings st).2.locks = st.locks := by
  unfold getOrCreateSettings
  cases st.settings <;> exact ⟨rfl, rfl, rfl⟩

/-- Ids stay duplicate-free through filter, sort and batch-limit. -/
theorem nodup_ids_sorted_take (before : Cand → Cand → Bool) (pred : Cand → Bool)
    (q : List Cand) (n : Nat) (h : (q.map (fun c => c.id)).Nodup) :
    (((sortBy before (q.filter pred)).take n).map (fun c => c.id)).Nodup := by
  have h1 : ((q.filter pred).map (fun c => c.id)).Nodup :=
    h.sublist ((q.filter_sublist).map _)
  have h2 : ((sortBy before (q.filter pred)).map (fun c => c.id)).Nodup :=
    ((sortBy_perm before (q.filter pred)).map _).nodup_iff.mpr h1
  exact h2.sublist ((List.take_sublist n _).map _)

/-! ## Claim C2 -/

/-- The C2 counterexample store: one due scheduled item, empty posted log and
empty lock store. -/
def c2St : St :=
  { queue := [⟨1, .instagram, "c", "cn", 0, .scheduled, some 0, none, none, none, none⟩],
    settings := some {} }

/-- Claim C2 counterexample: `postDueNow` (the `/api/post-now` and
`/api/autopilot/manual-post` operation of this repository) transitions a
scheduled item to `posted` while the lock store stays empty — no
`post:<id>` claim is ever acquired, refuting "no operation of the core posts
a scheduled item without first acquiring its claim lock". -/
theorem claim_C2_counterexample :
    ((postDueNow 10 c2St).1.queue.map (fun c => (c.id, c.status))) = [(1, .posted)] ∧
    (postDueNow 10 c2St).1.locks = [] ∧ c2St.locks = [] ∧
    (postDueNow 10 c2St).2.1 = 1 := by decide

/-- Claim C2 (amended): within `postDueWithCaps` — the scheduler's pacing
engine — every transition of an item from `scheduled` to `posted` is preceded,
in the same operation, by a successful `tryAcquire("post:<id>", 120)`: the
claim key is in the final lock store and was not in the initial one.  The
manual `postDueNow` operation, however, posts due items without claim locks
(see the counterexample). -/
theorem claim_C2_theorem :
    ∀ (now : Int) (nowHHmm : String) (st : St) (c c' : Cand),
      (st.queue.map (fun x => x.id)).Nodup →
      c ∈ st.queue → c.status = .scheduled →
      c' ∈ (postDueWithCaps now nowHHmm st).1.queue → c'.id = c.id →
      c'.status = .posted →
      postKey c.id ∈ (postDueWithCaps now nowHHmm st).1.locks.map (fun l => l.1) ∧
      postKey c.id ∉ st.locks.map (fun l => l.1) := by
  intro now nowHHmm st c c' hqn hc hcs hc' hid hps
  have hfr := getOrCreateSettings_frame st
  unfold postDueWithCaps at hc' ⊢
  have hqn1 : ((getOrCreateSettings st).2.queue.map (fun x => x.id)).Nodup := by
    rw [hfr.1]; exact hqn
  have hc1 : c ∈ (getOrCreateSettings st).2.queue := by rw [hfr.1]; exact hc
  have hdn := nodup_ids_sorted_take dueBefore
    (fun c => decide (c.status = Status.scheduled ∧ schedDue c now = true))
    (getOrCreateSettings st).2.queue 50 hqn1
  have := postLoop_claim_lock (getOrCreateSettings st).1 now
    (effectiveHourlyLimit (getOrCreateSettings st).1 nowHHmm)
    ((sortBy dueBefore ((getOrCreateSettings st).2.queue.filter
      (fun c => decide (c.status = Status.scheduled ∧ schedDue c now = true)))).take 50)
    (fun pl => countPostedSince (getOrCreateSettings st).2.queue pl (now - 60 * 60 * 1000))
    (getOrCreateSettings st).2 0 0 [] hqn1 hdn c c' hc1 hcs hc' hid hps
  refine ⟨this.1, ?_⟩
  rw [← hfr.2.2]
  exact this.2

/-- The C2 witness store: one due scheduled Instagram item, ample cap, empty
lock store, so the pacing engine posts it. -/
def c2wSt : St :=
  { queue := [⟨3, .instagram, "w", "wn", 0, .scheduled, some 5, none, none, none, none⟩],
    settings := some {} }

/-- Claim C2 witness: the amended theorem at a concrete store — the pacing
engine posts the due item, and indeed its claim key `post:3` is in the final
lock store and was not held before. -/
theorem claim_C2_witness :
    postKey 3 ∈ (postDueWithCaps 10 "12:00" c2wSt).1.locks.map (fun l => l.1) ∧
    postKey 3 ∉ c2wSt.locks.map (fun l => l.1) :=
  claim_C2_theorem 10 "12:00" c2wSt
    ⟨3, .instagram, "w", "wn", 0, .scheduled, some 5, none, none, none, none⟩
    ⟨3, .instagram, "w", "wn", 0, .posted, some 5, some 10, none, none, none⟩
    (by decide) (by decide) (by decide) (by decide) (by decide) (by decide)

theorem postedEvCount_claim_skip (pl : Platform) (i j : Nat) (r : Reason) :
    postedEvCount pl [.claimEv i, .skippedDupEv j r] = 0 := by
  simp [postedEvCount]

theorem postedEvCount_claim_post (pl : Platform) (i j : Nat) (q : Platform) :
    postedEvCount pl [.claimEv i, .postedEv j q] = if q = pl then 1 else 0 := by
  by_cases h : q = pl <;> simp [postedEvCount, h]

/-- In-tick cap safety: the pacing loop adds at most `cap − totals pl`
successful posts for platform `pl` — counting the posts it has itself
committed earlier in the same batch. -/
theorem postLoop_cap_bound (s : SettingsDoc) (now : Int) (cap : Nat) :
    ∀ (due : List Cand) (totals : Platform → Nat) (st : St) (p sk : Nat)
      (evs : List Ev) (pl : Platform),
      totals pl ≤ cap →
      postedEvCount pl (postLoop s now cap due totals st p sk evs).2.2.2 ≤
        postedEvCount pl evs + (cap - totals pl) := by
  intro due
  induction due with
  | nil => intro totals st p sk evs pl _; simp [postLoop]
  | cons d rest ih =>
    intro totals st p sk evs pl htot
    rw [postLoop]
    by_cases hg : cap ≤ totals d.platform
    · rw [if_pos hg]; exact ih totals st p sk evs pl htot
    · rw [if_neg hg]
      by_cases hl : postKey d.id ∈ st.locks.map (fun l => l.1)
      · have hlk : tryAcquireLock now (postKey d.id) 120 st = (false, st) := by
          simp [tryAcquireLock, hl]
        rw [hlk]
        simp only [Bool.false_eq_true, if_false]
        exact ih totals st p sk evs pl htot
      · have hlk : tryAcquireLock now (postKey d.id) 120 st =
            (true, { st with locks := st.locks ++ [(postKey d.id, now + 120 * 1000)] }) := by
          simp [tryAcquireLock, hl]
        rw [hlk]
        simp only [if_true]
        set st1 : St := { st with locks := st.locks ++ [(postKey d.id, now + 120 * 1000)] }
          with hst1
        by_cases hd : (isDuplicateCandidate d s st1.posted).duplicate = true
        · rw [if_pos hd]
          have hthis := ih totals (setStatus st1 d.id .skipped) p (sk + 1)
            (evs ++ [.claimEv d.id, .skippedDupEv d.id
              ((isDuplicateCandidate d s st1.posted).reason.getD .duplicate_visual)]) pl htot
          rw [postedEvCount_append, postedEvCount_claim_skip, Nat.add_zero] at hthis
          exact hthis
        · rw [if_neg hd]
          by_cases hp : d.platform = pl
          · have hlt : totals pl < cap := by rw [← hp]; omega
            have h2 : (fun p => if p = d.platform then totals p + 1 else totals p) pl =
                totals pl + 1 := by
              show (if pl = d.platform then totals pl + 1 else totals pl) = totals pl + 1
              rw [if_pos hp.symm]
            have hthis := ih (fun p => if p = d.platform then totals p + 1 else totals p)
              (appendMemo (markPosted st1 d.id now) d now) (p + 1) sk
              (evs ++ [.claimEv d.id, .postedEv d.id d.platform]) pl (by rw [h2]; omega)
            rw [postedEvCount_append, postedEvCount_claim_post, if_pos hp, h2] at hthis
            exact le_trans hthis (by omega)
          · have h2 : (fun p => if p = d.platform then totals p + 1 else totals p) pl =
                totals pl := by
              show (if pl = d.platform then totals pl + 1 else totals pl) = totals pl
              rw [if_neg (fun h => hp h.symm)]
            have hthis := ih (fun p => if p = d.platform then totals p + 1 else totals p)
              (appendMemo (markPosted st1 d.id now) d now) (p + 1) sk
              (evs ++ [.claimEv d.id, .postedEv d.id d.platform]) pl (by rw [h2]; exact htot)
            rw [postedEvCount_append, postedEvCount_claim_post, if_neg hp, Nat.add_zero, h2]
              at hthis
            exact hthis

theorem coh_updateById (f : Cand → Cand) (hfi : ∀ c, (f c).id = c.id)
    (hfp : ∀ c, (f c).platform = c.platform) (j : Nat) {q : List Cand} {rest : List Cand}
    (h : ∀ d' ∈ rest, ∀ x ∈ q, x.id = d'.id → x.platform = d'.platform) :
    ∀ d' ∈ rest, ∀ x ∈ updateById j f q, x.id = d'.id → x.platform = d'.platform := by
  intro d' hd' x hx hxi
  rcases List.mem_map.mp hx with ⟨y, hy, hxy⟩
  by_cases hyj : y.id = j
  · rw [if_pos hyj] at hxy
    have h1 : x.id = y.id := by rw [← hxy, hfi]
    have h2 : x.platform = y.platform := by rw [← hxy, hfp]
    rw [h2]
    exact h d' hd' y hy (by rw [← h1, hxi])
  · rw [if_neg hyj] at hxy
    rw [← hxy] at hxi ⊢
    exact h d' hd' y hy hxi

/-- At-cap frame: once a platform's trailing-hour count meets the cap, the
pacing loop leaves every item of that platform untouched and posts none of
them. -/
theorem postLoop_at_cap_frame (s : SettingsDoc) (now : Int) (cap : Nat) :
    ∀ (due : List Cand) (totals : Platform → Nat) (st : St) (p sk : Nat)
      (evs : List Ev) (pl : Platform),
      cap ≤ totals pl →
      (∀ d ∈ due, ∀ x ∈ st.queue, x.id = d.id → x.platform = d.platform) →
      (postLoop s now cap due totals st p sk evs).1.queue.filter (fun c => c.platform = pl) =
        st.queue.filter (fun c => c.platform = pl) ∧
      postedEvCount pl (postLoop s now cap due totals st p sk evs).2.2.2 =
        postedEvCount pl evs := by
  intro due
  induction due with
  | nil => intro totals st p sk evs pl _ _; exact ⟨rfl, rfl⟩
  | cons d rest ih =>
    intro totals st p sk evs pl htot hcoh
    have hcohr : ∀ d' ∈ rest, ∀ x ∈ st.queue, x.id = d'.id → x.platform = d'.platform :=
      fun d' hd' => hcoh d' (by simp [hd'])
    rw [postLoop]
    by_cases hg : cap ≤ totals d.platform
    · rw [if_pos hg]; exact ih totals st p sk evs pl htot hcohr
    · rw [if_neg hg]
      have hdp : ¬ d.platform = pl := fun he => hg (he ▸ htot)
      by_cases hl : postKey d.id ∈ st.locks.map (fun l => l.1)
      · have hlk : tryAcquireLock now (postKey d.id) 120 st = (false, st) := by
          simp [tryAcquireLock, hl]
        rw [hlk]
        simp only [Bool.false_eq_true, if_false]
        exact ih totals st p sk evs pl htot hcohr
      · have hlk : tryAcquireLock now (postKey d.id) 120 st =
            (true, { st with locks := st.locks ++ [(postKey d.id, now + 120 * 1000)] }) := by
          simp [tryAcquireLock, hl]
        rw [hlk]
        simp only [if_true]
        set st1 : St := { st with locks := st.locks ++ [(postKey d.id, now + 120 * 1000)] }
          with hst1
        have hfilter : ∀ x ∈ st.queue, x.id = d.id → ¬ x.platform = pl := by
          intro x hx hxi hxp
          exact hdp (by rw [← hxp]; exact (hcoh d (by simp) x hx hxi).symm)
        by_cases hd : (isDuplicateCandidate d s st1.posted).duplicate = true
        · rw [if_pos hd]
          have hco2 : ∀ d' ∈ rest, ∀ x ∈ (setStatus st1 d.id .skipped).queue,
              x.id = d'.id → x.platform = d'.platform :=
            coh_updateById (fun c => { c with status := Status.skipped })
              (fun c => rfl) (fun c => rfl) d.id hcohr
          have hthis := ih totals (setStatus st1 d.id .skipped) p (sk + 1)
            (evs ++ [.claimEv d.id, .skippedDupEv d.id
              ((isDuplicateCandidate d s st1.posted).reason.getD .duplicate_visual)]) pl
            htot hco2
          rw [postedEvCount_append, postedEvCount_claim_skip, Nat.add_zero] at hthis
          refine ⟨hthis.1.trans ?_, hthis.2⟩
          exact updateById_filter_platform (fun c => { c with status := Status.skipped })
            (fun c => rfl) st.queue hfilter
        · rw [if_neg hd]
          have hco2 : ∀ d' ∈ rest, ∀ x ∈ (appendMemo (markPosted st1 d.id now) d now).queue,
              x.id = d'.id → x.platform = d'.platform :=
            coh_updateById (fun c => { c with status := Status.posted, postedAt := some now })
              (fun c => rfl) (fun c => rfl) d.id hcohr
          have h2 : (fun p => if p = d.platform then totals p + 1 else totals p) pl =
              totals pl := by
            show (if pl = d.platform then totals pl + 1 else totals pl) = totals pl
            rw [if_neg (fun h => hdp h.symm)]
          have hthis := ih (fun p => if p = d.platform then totals p + 1 else totals p)
            (appendMemo (markPosted st1 d.id now) d now) (p + 1) sk
            (evs ++ [.claimEv d.id, .postedEv d.id d.platform]) pl (by rw [h2]; exact htot)
            hco2
          rw [postedEvCount_append, postedEvCount_claim_post, if_neg hdp, Nat.add_zero]
            at hthis
          refine ⟨hthis.1.trans ?_, hthis.2⟩
          exact updateById_filter_platform
            (fun c => { c with status := Status.posted, postedAt := some now })
            (fun c => rfl) st.queue hfilter

/-! ## Claim C6 -/

/-- The C6 scenario: `hourlyLimit = 2`, two Instagram items already posted
inside the trailing hour, and two due scheduled Instagram items. -/
def c6St : St :=
  { queue :=
      [⟨1, .instagram, "a", "an", 0, .posted, none, some 9990000, none, none, none⟩,
       ⟨2, .instagram, "b", "bn", 0, .posted, none, some 9980000, none, none, none⟩,
       ⟨3, .instagram, "c", "cn", 0, .scheduled, some 0, none, none, none, none⟩,
       ⟨4, .instagram, "d", "dn", 0, .scheduled, some 1, none, none, none, none⟩],
    settings := some { hourlyLimit := 2 } }

/-- Claim C6: the due-posting operation never posts an item of a platform
whose trailing-60-minute posted count — including posts committed earlier in
the same invocation — is at or above the effective hourly cap.  (1) In-tick
cap safety: the loop adds at most `cap − totals` posts per platform.  (2) If
a platform is already at the cap when the operation starts, every item of
that platform is left untouched and zero of its items are posted.  (3) In the
concrete scenario (`hourlyLimit = 2`, trailing-hour count already 2), the
whole operation is a no-op: zero posts, store unchanged, no events. -/
theorem claim_C6_theorem :
    (∀ (s : SettingsDoc) (now : Int) (cap : Nat) (due : List Cand)
        (totals : Platform → Nat) (st : St) (p sk : Nat) (evs : List Ev) (pl : Platform),
      totals pl ≤ cap →
      postedEvCount pl (postLoop s now cap due totals st p sk evs).2.2.2 ≤
        postedEvCount pl evs + (cap - totals pl)) ∧
    (∀ (now : Int) (nowHHmm : String) (st : St) (pl : Platform),
      (st.queue.map (fun x => x.id)).Nodup →
      effectiveHourlyLimit (getOrCreateSettings st).1 nowHHmm ≤
        countPostedSince st.queue pl (now - 60 * 60 * 1000) →
      (postDueWithCaps now nowHHmm st).1.queue.filter (fun c => c.platform = pl) =
        st.queue.filter (fun c => c.platform = pl) ∧
      postedEvCount pl (postDueWithCaps now nowHHmm st).2.2.2 = 0) ∧
    postDueWithCaps 10000000 "12:00" c6St = (c6St, 0, 0, []) := by
  refine ⟨postLoop_cap_bound, ?_, by decide⟩
  intro now nowHHmm st pl hqn hcap
  have hfr := getOrCreateSettings_frame st
  unfold postDueWithCaps
  have hcoh : ∀ d ∈ (sortBy dueBefore ((getOrCreateSettings st).2.queue.filter
      (fun c => decide (c.status = Status.scheduled ∧ schedDue c now = true)))).take 50,
      ∀ x ∈ (getOrCreateSettings st).2.queue, x.id = d.id → x.platform = d.platform := by
    intro d hd x hx hxi
    have hdq : d ∈ (getOrCreateSettings st).2.queue := by
      have h1 := List.take_subset 50 _ hd
      have h2 := (sortBy_perm dueBefore _).subset h1
      exact List.mem_of_mem_filter h2
    rw [hfr.1] at hdq hx
    have hxd : x = d := List.inj_on_of_nodup_map hqn hx hdq hxi
    rw [hxd]
  have hcap1 : effectiveHourlyLimit (getOrCreateSettings st).1 nowHHmm ≤
      (fun pl' => countPostedSince (getOrCreateSettings st).2.queue pl'
        (now - 60 * 60 * 1000)) pl := by
    show effectiveHourlyLimit (getOrCreateSettings st).1 nowHHmm ≤
      countPostedSince (getOrCreateSettings st).2.queue pl (now - 60 * 60 * 1000)
    rw [hfr.1]
    exact hcap
  have hmain := postLoop_at_cap_frame (getOrCreateSettings st).1 now
    (effectiveHourlyLimit (getOrCreateSettings st).1 nowHHmm)
    ((sortBy dueBefore ((getOrCreateSettings st).2.queue.filter
      (fun c => decide (c.status = Status.scheduled ∧ schedDue c now = true)))).take 50)
    (fun pl' => countPostedSince (getOrCreateSettings st).2.queue pl' (now - 60 * 60 * 1000))
    (getOrCreateSettings st).2 0 0 [] pl hcap1 hcoh
  refine ⟨hmain.1.trans ?_, hmain.2⟩
  rw [hfr.1]

/-- Claim C6 witness: the at-cap part of the theorem instantiated at the
concrete scenario store — Instagram already has 2 posts in the trailing hour
against a cap of 2, so its items are untouched and none are posted. -/
theorem claim_C6_witness :
    (postDueWithCaps 10000000 "12:00" c6St).1.queue.filter
        (fun c => c.platform = Platform.instagram) =
      c6St.queue.filter (fun c => c.platform = Platform.instagram) ∧
    postedEvCount Platform.instagram (postDueWithCaps 10000000 "12:00" c6St).2.2.2 = 0 :=
  claim_C6_theorem.2.1 10000000 "12:00" c6St Platform.instagram (by decide) (by decide)

end Backend
